import Mathlib

/-!
# Verification of the webcam-js filter/pipeline engine

Shallow embedding of the pixel-transform pipeline of the `webcam-js`
repository.  JavaScript number arithmetic is modelled by exact rational
arithmetic (`ℚ`); 8-bit channel stores through `Uint8ClampedArray` are
modelled by clamping to `[0,255]` with round-half-to-even, and
`Math.round` by round-half-up, following the ECMAScript/HTML semantics
of those operations.  Image buffers (canvases) are modelled as
rectangles of RGBA pixels addressed by integer coordinates.
-/

namespace WebcamJS

/-- One RGBA pixel as held by an `ImageData` buffer: four 8-bit unsigned
channel samples. -/
structure Pixel where
  r : ℕ
  g : ℕ
  b : ℕ
  a : ℕ
deriving DecidableEq

/-- `Math.round`: round to the nearest integer, ties toward `+∞`. -/
def jsRound (q : ℚ) : ℤ := ⌊q + 1/2⌋

/-- Evaluation helper: `Int.toNat` of a numeric literal. -/
theorem toNat_lit (n : ℕ) [n.AtLeastTwo] :
    (no_index (OfNat.ofNat n) : ℤ).toNat = OfNat.ofNat n := rfl

/-- Round to the nearest integer, ties to even (the rounding used when a
JavaScript number is stored into a `Uint8ClampedArray`). -/
def roundHalfEven (q : ℚ) : ℤ :=
  if q < (⌊q⌋ : ℚ) + 1/2 then ⌊q⌋
  else if (⌊q⌋ : ℚ) + 1/2 < q then ⌊q⌋ + 1
  else if ⌊q⌋ % 2 = 0 then ⌊q⌋ else ⌊q⌋ + 1

/-- Storing a JavaScript number into a `Uint8ClampedArray` slot: clamp
to `[0, 255]`, rounding to nearest with ties to even. -/
def clampStore (q : ℚ) : ℕ :=
  if q ≤ 0 then 0 else if 255 ≤ q then 255 else (roundHalfEven q).toNat

/-- Storing an integer into a `Uint8ClampedArray` slot (no rounding
needed). -/
def clampStoreInt (z : ℤ) : ℕ :=
  if z ≤ 0 then 0 else if 255 ≤ z then 255 else z.toNat

/-- Truncation toward zero, as used by the JavaScript `%` operator. -/
def jsTrunc (q : ℚ) : ℤ := if 0 ≤ q then ⌊q⌋ else -⌊-q⌋

/-- The JavaScript remainder operator `a % b` on numbers: the remainder
carries the sign of the dividend. -/
def jsMod (a b : ℚ) : ℚ := a - b * (jsTrunc (a / b))

/-! ## constants.js -/

def CANVAS_WIDTH : ℕ := 160
def CANVAS_HEIGHT : ℕ := 120

/-- Coefficients for RGB → YCbCr conversion (`RGB_TO_YCBCR` in
`constants.js`). -/
structure YCbCrCoeffs where
  Y_R : ℚ
  Y_G : ℚ
  Y_B : ℚ
  CB_R : ℚ
  CB_G : ℚ
  CB_B : ℚ
  CR_R : ℚ
  CR_G : ℚ
  CR_B : ℚ

def RGB_TO_YCBCR : YCbCrCoeffs :=
  { Y_R := 0.299, Y_G := 0.587, Y_B := 0.114
    CB_R := -0.168736, CB_G := -0.331264, CB_B := 0.5
    CR_R := 0.5, CR_G := -0.418688, CR_B := -0.081312 }

def BLOCK_SIZE : ℕ := 5
def BLUR_RADIUS : ℕ := 10

/-! ## rgbHsvFilter.js -/

namespace RgbHsvFilter

/-- Body of `RgbHsvFilter.processImageData` for one pixel: convert the
RGB channels to HSV and store hue (rescaled from 360° to 255), then
saturation and value (each rescaled to 255) into the R, G, B channels.
The alpha channel is not written. -/
def processPixel (p : Pixel) : Pixel :=
  let r : ℚ := (p.r : ℚ) / 255
  let g : ℚ := (p.g : ℚ) / 255
  let b : ℚ := (p.b : ℚ) / 255
  let mx : ℚ := max r (max g b)
  let mn : ℚ := min r (min g b)
  let diff : ℚ := mx - mn
  let h : ℚ :=
    if diff ≠ 0 then
      if mx = r then 60 * jsMod ((g - b) / diff) 6
      else if mx = g then 60 * ((b - r) / diff + 2)
      else 60 * ((r - g) / diff + 4)
    else 0
  let s : ℚ := if mx = 0 then 0 else diff / mx
  let v : ℚ := mx
  ⟨clampStore ((h * 255) / 360), clampStore (s * 255), clampStore (v * 255), p.a⟩

/-- `RgbHsvFilter.hsvToRgb`: decode an 8-bit encoded HSV triple back to
RGB.  Returns the raw (unclamped) `Math.round` results, exactly as the
JavaScript function returns a plain object. -/
def hsvToRgb (h8 s8 v8 : ℕ) : ℤ × ℤ × ℤ :=
  let h : ℚ := ((h8 : ℚ) / 255) * 360
  let s : ℚ := (s8 : ℚ) / 255
  let v : ℚ := (v8 : ℚ) / 255
  let c : ℚ := v * s
  let x : ℚ := c * (1 - |jsMod (h / 60) 2 - 1|)
  let m : ℚ := v - c
  let rgb : ℚ × ℚ × ℚ :=
    if 0 ≤ h ∧ h < 60 then (c, x, 0)
    else if 60 ≤ h ∧ h < 120 then (x, c, 0)
    else if 120 ≤ h ∧ h < 180 then (0, c, x)
    else if 180 ≤ h ∧ h < 240 then (0, x, c)
    else if 240 ≤ h ∧ h < 300 then (x, 0, c)
    else if 300 ≤ h ∧ h < 360 then (c, 0, x)
    else (0, 0, 0)
  (jsRound ((rgb.1 + m) * 255), jsRound ((rgb.2.1 + m) * 255), jsRound ((rgb.2.2 + m) * 255))

/-- The full encode/decode round trip of one RGB triple: encode with
`processImageData`, then decode the stored channels with `hsvToRgb`. -/
def roundTrip (r g b : ℕ) : ℤ × ℤ × ℤ :=
  let p := processPixel ⟨r, g, b, 255⟩
  hsvToRgb p.r p.g p.b

end RgbHsvFilter

/-! ## grayScaleFilter.js -/

namespace GrayScaleFilter

/-- Body of `GrayScaleFilter.processImageData` for one pixel: average the
three channels, scale by the brightness multiplier (`1.2` by default),
cap at 255 and store into R, G and B.  Alpha is not written. -/
def processPixel (brightnessIncrease : ℚ) (p : Pixel) : Pixel :=
  let gray : ℚ := ((p.r : ℚ) + (p.g : ℚ) + (p.b : ℚ)) / 3
  let brightened : ℚ := min (gray * brightnessIncrease) 255
  ⟨clampStore brightened, clampStore brightened, clampStore brightened, p.a⟩

end GrayScaleFilter

/-! ## channelFilter.js -/

/-- The `channel` constructor argument of `ChannelFilter` and
`ChannelThresholdFilter`. -/
inductive Channel
  | red
  | green
  | blue
deriving DecidableEq

/-- `{ red: 0, green: 1, blue: 2 }[channel]`: the channel's index, used
to select the source component `data[i + this.channelIndex]`. -/
def Channel.component (ch : Channel) (p : Pixel) : ℕ :=
  match ch with
  | .red => p.r
  | .green => p.g
  | .blue => p.b

namespace ChannelFilter

/-- Body of `ChannelFilter.processImageData` for one pixel: keep the
selected channel's value and zero the other two; alpha is preserved. -/
def processPixel (ch : Channel) (p : Pixel) : Pixel :=
  let value := ch.component p
  ⟨if ch = .red then value else 0,
   if ch = .green then value else 0,
   if ch = .blue then value else 0,
   p.a⟩

end ChannelFilter

/-! ## channelThresholdFilter.js -/

namespace ChannelThresholdFilter

/-- Body of `ChannelThresholdFilter.processImageData` for one pixel:
binarize the designated channel against the live slider threshold
(strict `>`), zero the other channels, force alpha to 255. -/
def processPixel (ch : Channel) (threshold : ℕ) (p : Pixel) : Pixel :=
  let value : ℕ := if ch.component p > threshold then 255 else 0
  ⟨if ch = .red then value else 0,
   if ch = .green then value else 0,
   if ch = .blue then value else 0,
   255⟩

end ChannelThresholdFilter

/-! ## rgbHsvThresholdFilter.js -/

namespace RgbHsvThresholdFilter

/-- Body of `RgbHsvThresholdFilter.processImageData` for one pixel: read
the encoded H, S, V from the R, G, B channels; if V exceeds the live
threshold (strict `>`), decode back to RGB with
`RgbHsvFilter.hsvToRgb` (stored through the clamped array), else emit
black.  Alpha is forced to 255. -/
def processPixel (threshold : ℕ) (p : Pixel) : Pixel :=
  let h := p.r
  let s := p.g
  let v := p.b
  if v > threshold then
    let rgb := RgbHsvFilter.hsvToRgb h s v
    ⟨clampStoreInt rgb.1, clampStoreInt rgb.2.1, clampStoreInt rgb.2.2, 255⟩
  else
    ⟨0, 0, 0, 255⟩

end RgbHsvThresholdFilter

/-! ## yCbCrFilter.js -/

namespace YCbCrFilter

/-- Body of `YCbCrFilter.processImageData` for one pixel: convert RGB to
YCbCr with the `RGB_TO_YCBCR` coefficients and store Y, Cb, Cr into the
R, G, B channels.  Alpha is not written. -/
def processPixel (p : Pixel) : Pixel :=
  let r : ℚ := (p.r : ℚ)
  let g : ℚ := (p.g : ℚ)
  let b : ℚ := (p.b : ℚ)
  let y : ℚ := RGB_TO_YCBCR.Y_R * r + RGB_TO_YCBCR.Y_G * g + RGB_TO_YCBCR.Y_B * b
  let cb : ℚ := 128 + RGB_TO_YCBCR.CB_R * r + RGB_TO_YCBCR.CB_G * g + RGB_TO_YCBCR.CB_B * b
  let cr : ℚ := 128 + RGB_TO_YCBCR.CR_R * r + RGB_TO_YCBCR.CR_G * g + RGB_TO_YCBCR.CR_B * b
  ⟨clampStore y, clampStore cb, clampStore cr, p.a⟩

end YCbCrFilter

/-! ## yCbCrThresholdFilter.js -/

namespace YCbCrThresholdFilter

/-- Body of `YCbCrThresholdFilter.processImageData` for one pixel: read
the Y component from the R channel and binarize all three channels
against the live threshold (strict `>`); alpha is forced to 255. -/
def processPixel (threshold : ℕ) (p : Pixel) : Pixel :=
  let y := p.r
  let value : ℕ := if y > threshold then 255 else 0
  ⟨value, value, value, 255⟩

end YCbCrThresholdFilter

/-! ## webcamRepeatFilter.js -/

namespace WebcamRepeatFilter

/-- `WebcamRepeatFilter.processImageData` returns the image data
unmodified: the identity per-pixel transform. -/
def processPixel (p : Pixel) : Pixel := p

end WebcamRepeatFilter

/-! ## Canvas model

An HTML canvas: a `width × height` grid of RGBA pixels.  The pixel store
is a total function on `ℤ × ℤ`; only coordinates inside the bounds are
meaningful, and every canvas primitive below reads and writes only
in-bounds coordinates, following the HTML canvas semantics:

* `getImageData` returns transparent black for requested pixels that lie
  outside the source canvas;
* `putImageData` and `drawImage` silently clip to the destination
  canvas bounds;
* `drawImage` is modelled as an unscaled pixel copy (all draws in the
  repository use equal source and destination rectangle sizes, over
  fully opaque canvas content, where source-over compositing is exactly
  replacement).
-/

structure Canvas where
  width : ℕ
  height : ℕ
  data : ℤ → ℤ → Pixel

/-- Transparent black, the content of a fresh canvas and of
out-of-bounds `getImageData` reads. -/
def transparent : Pixel := ⟨0, 0, 0, 0⟩

namespace Canvas

/-- Coordinate `(p, q)` lies inside the canvas. -/
def inBounds (cv : Canvas) (p q : ℤ) : Prop :=
  0 ≤ p ∧ p < (cv.width : ℤ) ∧ 0 ≤ q ∧ q < (cv.height : ℤ)

instance (cv : Canvas) (p q : ℤ) : Decidable (cv.inBounds p q) := by
  unfold inBounds; infer_instance

/-- `ctx.getImageData(x, y, w, h)`: the returned `ImageData` grid,
indexed from `(0,0)`; requested pixels outside the canvas read as
transparent black. -/
def getImageData (cv : Canvas) (x y : ℤ) : ℤ → ℤ → Pixel :=
  fun i j => if cv.inBounds (x + i) (y + j) then cv.data (x + i) (y + j) else transparent

/-- `ctx.putImageData(img, dx, dy)` for an image of size `w × h`: write
the image's pixels at offset `(dx, dy)`, clipped to the canvas. -/
def putImageData (cv : Canvas) (img : ℤ → ℤ → Pixel) (w h : ℕ) (dx dy : ℤ) : Canvas :=
  { cv with
    data := fun p q =>
      if cv.inBounds p q ∧ dx ≤ p ∧ p < dx + (w : ℤ) ∧ dy ≤ q ∧ q < dy + (h : ℤ) then
        img (p - dx) (q - dy)
      else cv.data p q }

/-- `ctx.drawImage(src, sx, sy, w, h, dx, dy, w, h)` (unscaled):
copy the `w × h` source rectangle at `(sx, sy)` to the destination
rectangle at `(dx, dy)`, clipped to the destination canvas; source
pixels outside the source canvas read as transparent. -/
def drawImageRect (cv : Canvas) (src : Canvas) (sx sy : ℤ) (w h : ℕ) (dx dy : ℤ) : Canvas :=
  { cv with
    data := fun p q =>
      if cv.inBounds p q ∧ dx ≤ p ∧ p < dx + (w : ℤ) ∧ dy ≤ q ∧ q < dy + (h : ℤ) then
        src.getImageData sx sy (p - dx) (q - dy)
      else cv.data p q }

/-- `ctx.clearRect(x, y, w, h)`: reset the rectangle (clipped to the
canvas) to transparent black. -/
def clearRect (cv : Canvas) (x y : ℤ) (w h : ℕ) : Canvas :=
  { cv with
    data := fun p q =>
      if cv.inBounds p q ∧ x ≤ p ∧ p < x + (w : ℤ) ∧ y ≤ q ∧ q < y + (h : ℤ) then
        transparent
      else cv.data p q }

/-- `ctx.fillRect(x, y, w, h)` with an opaque `rgb(r, g, b)` fill
style: paint the rectangle (clipped to the canvas) with the color. -/
def fillRect (cv : Canvas) (x y : ℤ) (w h : ℕ) (color : Pixel) : Canvas :=
  { cv with
    data := fun p q =>
      if cv.inBounds p q ∧ x ≤ p ∧ p < x + (w : ℤ) ∧ y ≤ q ∧ q < y + (h : ℤ) then
        color
      else cv.data p q }

/-- A fresh (off-screen) canvas: all pixels transparent black. -/
def blank (w h : ℕ) : Canvas := ⟨w, h, fun _ _ => transparent⟩

end Canvas

/-! ## maskFaceFilter.js -/

/-- A face region as supplied by the detector: an axis-aligned rectangle
in frame coordinates.  It may extend beyond (or lie entirely outside)
a canvas. -/
structure Region where
  x : ℤ
  y : ℤ
  width : ℕ
  height : ℕ

namespace MaskFaceFilter

/-- The per-pixel body of `applyGrayscaleMask`: replace R, G, B by their
mean. -/
def grayscalePixel (p : Pixel) : Pixel :=
  let gray : ℚ := ((p.r : ℚ) + (p.g : ℚ) + (p.b : ℚ)) / 3
  ⟨clampStore gray, clampStore gray, clampStore gray, p.a⟩

/-- The per-pixel body of `applyYCbCrMask` (the literal coefficients are
inlined in `maskFaceFilter.js`). -/
def ycbcrPixel (p : Pixel) : Pixel :=
  let r : ℚ := (p.r : ℚ)
  let g : ℚ := (p.g : ℚ)
  let b : ℚ := (p.b : ℚ)
  let y : ℚ := 0.299 * r + 0.587 * g + 0.114 * b
  let cb : ℚ := 128 - 0.168736 * r - 0.331264 * g + 0.5 * b
  let cr : ℚ := 128 + 0.5 * r - 0.418688 * g - 0.081312 * b
  ⟨clampStore y, clampStore cb, clampStore cr, p.a⟩

/-- `applyGrayscaleMask`: read the face region from the source canvas,
average each pixel's channels, and put the result back onto the
filter's own canvas at the region's origin. -/
def applyGrayscaleMask (dst src : Canvas) (fr : Region) : Canvas :=
  let imageData := src.getImageData fr.x fr.y
  let processed := fun i j => grayscalePixel (imageData i j)
  dst.putImageData processed fr.width fr.height fr.x fr.y

/-- `applyYCbCrMask`: like the grayscale mask, with the YCbCr recode. -/
def applyYCbCrMask (dst src : Canvas) (fr : Region) : Canvas :=
  let imageData := src.getImageData fr.x fr.y
  let processed := fun i j => ycbcrPixel (imageData i j)
  dst.putImageData processed fr.width fr.height fr.x fr.y

/-- `applyBlurMask`: copy the face region to a temporary canvas, then
clear the region on the destination and draw the temporary canvas back.
(The code sets `context.filter` to a CSS blur but resets it to `none`
before the destination draw, so no blur enters the pixel model.) -/
def applyBlurMask (dst src : Canvas) (fr : Region) : Canvas :=
  let temp := (Canvas.blank fr.width fr.height).drawImageRect src fr.x fr.y
    fr.width fr.height 0 0
  let cleared := dst.clearRect fr.x fr.y fr.width fr.height
  cleared.drawImageRect temp 0 0 fr.width fr.height fr.x fr.y

/-- `calculateAverageColor`: the arithmetic mean of the R, G and B
channels over a `bw × bh` block of image data, each `Math.round`ed. -/
def calculateAverageColor (data : ℤ → ℤ → Pixel) (bw bh : ℕ) : ℤ × ℤ × ℤ :=
  let count : ℕ := bw * bh
  let sumR : ℕ := ∑ j ∈ Finset.range bh, ∑ i ∈ Finset.range bw, (data (i : ℤ) (j : ℤ)).r
  let sumG : ℕ := ∑ j ∈ Finset.range bh, ∑ i ∈ Finset.range bw, (data (i : ℤ) (j : ℤ)).g
  let sumB : ℕ := ∑ j ∈ Finset.range bh, ∑ i ∈ Finset.range bw, (data (i : ℤ) (j : ℤ)).b
  (jsRound ((sumR : ℚ) / (count : ℚ)),
   jsRound ((sumG : ℚ) / (count : ℚ)),
   jsRound ((sumB : ℚ) / (count : ℚ)))

/-- One iteration of the pixelation block loop: average the (possibly
partial) block at `(x, y)` and flood `fillRect` it with the mean color
(an opaque `rgb(...)` fill). -/
def pixelateBlock (w h : ℕ) (t : Canvas) (x y : ℕ) : Canvas :=
  let blockWidth := min BLOCK_SIZE (w - x)
  let blockHeight := min BLOCK_SIZE (h - y)
  let blockData := t.getImageData (x : ℤ) (y : ℤ)
  let avg := calculateAverageColor blockData blockWidth blockHeight
  t.fillRect (x : ℤ) (y : ℤ) BLOCK_SIZE BLOCK_SIZE
    ⟨avg.1.toNat, avg.2.1.toNat, avg.2.2.toNat, 255⟩

/-- The block origins visited by `for (let v = 0; v < n; v += BLOCK_SIZE)`. -/
def blockStarts (n : ℕ) : List ℕ :=
  (List.range ((n + BLOCK_SIZE - 1) / BLOCK_SIZE)).map (· * BLOCK_SIZE)

/-- `applyPixelateMask`: copy the face region to a temporary canvas,
replace every `BLOCK_SIZE`-sized block (clipped at the right/bottom
edges) by its average color, and draw the result back onto the
destination at the region's origin. -/
def applyPixelateMask (dst src : Canvas) (fr : Region) : Canvas :=
  let temp0 := (Canvas.blank fr.width fr.height).drawImageRect src fr.x fr.y
    fr.width fr.height 0 0
  let temp := (blockStarts fr.height).foldl
    (fun t y => (blockStarts fr.width).foldl (fun t' x => pixelateBlock fr.width fr.height t' x y) t)
    temp0
  dst.drawImageRect temp 0 0 fr.width fr.height fr.x fr.y

/-- The effect dispatch table built in the `MaskFaceFilter`
constructor. -/
inductive Effect
  | grayscale
  | blur
  | pixelate
  | ycbcr
deriving DecidableEq

/-- `applyEffect`: dispatch on the effect name. -/
def applyEffect (e : Effect) (dst src : Canvas) (fr : Region) : Canvas :=
  match e with
  | .grayscale => applyGrayscaleMask dst src fr
  | .blur => applyBlurMask dst src fr
  | .pixelate => applyPixelateMask dst src fr
  | .ycbcr => applyYCbCrMask dst src fr

end MaskFaceFilter

/-! ## app.js — `ImageProcessorApp.processImage`, abstract failure model

`processImage` runs the whole ordered list of filter invocations inside
one `try { ... } catch (error) { console.error(...); alert(...) }`.
Each invocation is `ImageFilter.process`: it first draws the source onto
the filter's canvas (`drawImage`), then computes `processImageData`,
which may throw.  A buffer is an opaque value of type `α`; a filter body
is `α → Option α`, where `none` models a thrown exception. -/

namespace Orchestrator

variable {α : Type}

/-- Run the cycle's filter list over the per-filter output buffers.
Each filter first overwrites its buffer with the drawn source; if its
body throws (`none`), the exception propagates to the surrounding
`catch`, which logs it (the returned flag) — the remaining filters of
the cycle are not reached and keep their previous buffers. -/
def runCycle : List (α → Option α) → α → List α → List α × Bool
  | [], _, bufs => (bufs, false)
  | _ :: _, _, [] => ([], false)
  | f :: fs, src, _ :: bs =>
    match f src with
    | some out =>
      let rest := runCycle fs src bs
      (out :: rest.1, rest.2)
    | none => (src :: bs, true)

end Orchestrator

/-! ## app.js — the concrete per-frame pipeline

One output canvas per filter, each initialized by `initializeCanvas` to
`CANVAS_WIDTH × CANVAS_HEIGHT`; `processImage` re-runs every filter,
reading the live threshold slider values.  The face-detection filter
draws on the external detector's results and is outside the engine (see
§1 of the specification); the twelve pixel-processing surfaces are
modelled. -/

namespace Pipeline

/-- The five live threshold slider values (read by `parseInt` at
processing time). -/
structure Thresholds where
  red : ℕ
  green : ℕ
  blue : ℕ
  colorSpace1 : ℕ
  colorSpace2 : ℕ

/-- The pixel stores of the twelve filter output canvases (each canvas
is `CANVAS_WIDTH × CANVAS_HEIGHT`). -/
structure AppState where
  grayscale : ℤ → ℤ → Pixel
  webcamRepeat : ℤ → ℤ → Pixel
  redChannel : ℤ → ℤ → Pixel
  greenChannel : ℤ → ℤ → Pixel
  blueChannel : ℤ → ℤ → Pixel
  redThreshold : ℤ → ℤ → Pixel
  greenThreshold : ℤ → ℤ → Pixel
  blueThreshold : ℤ → ℤ → Pixel
  rgbHsv : ℤ → ℤ → Pixel
  rgbHsvThreshold : ℤ → ℤ → Pixel
  ycbcr : ℤ → ℤ → Pixel
  ycbcrThreshold : ℤ → ℤ → Pixel

/-- Frame coordinates inside the fixed canvas size. -/
def inFrame (p q : ℤ) : Prop :=
  0 ≤ p ∧ p < (CANVAS_WIDTH : ℤ) ∧ 0 ≤ q ∧ q < (CANVAS_HEIGHT : ℤ)

instance (p q : ℤ) : Decidable (inFrame p q) := by
  unfold inFrame; infer_instance

/-- `ImageFilter.process`: draw the source over the whole canvas, read
the image data, transform it per pixel, and put it back.  In-bounds
pixels become `f (source p q)`; the data function is unchanged
elsewhere. -/
def processCanvas (f : Pixel → Pixel) (source : ℤ → ℤ → Pixel)
    (old : ℤ → ℤ → Pixel) : ℤ → ℤ → Pixel :=
  fun p q => if inFrame p q then f (source p q) else old p q

/-- `ImageProcessorApp.processImage`, restricted to the engine's twelve
pixel-processing filters, in source order: the webcam repeat and the
independent filters read the webcam frame; `rgbHsvThreshold` reads the
just-updated `rgbHsv` canvas and `ycbcrThreshold` the just-updated
`ycbcr` canvas. -/
def processImage (st : AppState) (webcam : ℤ → ℤ → Pixel) (th : Thresholds) : AppState :=
  let st1 := { st with webcamRepeat := processCanvas WebcamRepeatFilter.processPixel webcam st.webcamRepeat }
  let st2 := { st1 with grayscale := processCanvas (GrayScaleFilter.processPixel 1.2) webcam st1.grayscale }
  let st3 := { st2 with redChannel := processCanvas (ChannelFilter.processPixel .red) webcam st2.redChannel }
  let st4 := { st3 with greenChannel := processCanvas (ChannelFilter.processPixel .green) webcam st3.greenChannel }
  let st5 := { st4 with blueChannel := processCanvas (ChannelFilter.processPixel .blue) webcam st4.blueChannel }
  let st6 := { st5 with redThreshold := processCanvas (ChannelThresholdFilter.processPixel .red th.red) webcam st5.redThreshold }
  let st7 := { st6 with greenThreshold := processCanvas (ChannelThresholdFilter.processPixel .green th.green) webcam st6.greenThreshold }
  let st8 := { st7 with blueThreshold := processCanvas (ChannelThresholdFilter.processPixel .blue th.blue) webcam st7.blueThreshold }
  let st9 := { st8 with rgbHsv := processCanvas RgbHsvFilter.processPixel webcam st8.rgbHsv }
  let st10 := { st9 with rgbHsvThreshold := processCanvas (RgbHsvThresholdFilter.processPixel th.colorSpace1) st9.rgbHsv st9.rgbHsvThreshold }
  let st11 := { st10 with ycbcr := processCanvas YCbCrFilter.processPixel webcam st10.ycbcr }
  { st11 with ycbcrThreshold := processCanvas (YCbCrThresholdFilter.processPixel th.colorSpace2) st11.ycbcr st11.ycbcrThreshold }

end Pipeline

/-! ## Theorems -/

/-- C3: for each of the five threshold filters (red, green and blue
channel thresholds; the HSV-value threshold; the YCbCr-luma threshold)
and every threshold `t ∈ [0, 255]`, a pixel whose designated source
component equals `t` exactly takes the below branch — black output,
zero in the designated channel — because the comparison is strict
greater-than. -/
theorem threshold_strict_at_equal (t : ℕ) (ht : t ≤ 255) (p : Pixel) :
    (p.r = t → ChannelThresholdFilter.processPixel .red t p = ⟨0, 0, 0, 255⟩) ∧
    (p.g = t → ChannelThresholdFilter.processPixel .green t p = ⟨0, 0, 0, 255⟩) ∧
    (p.b = t → ChannelThresholdFilter.processPixel .blue t p = ⟨0, 0, 0, 255⟩) ∧
    (p.b = t → RgbHsvThresholdFilter.processPixel t p = ⟨0, 0, 0, 255⟩) ∧
    (p.r = t → YCbCrThresholdFilter.processPixel t p = ⟨0, 0, 0, 255⟩) := by
  refine ⟨fun h => ?_, fun h => ?_, fun h => ?_, fun h => ?_, fun h => ?_⟩ <;>
    simp [ChannelThresholdFilter.processPixel, RgbHsvThresholdFilter.processPixel,
      YCbCrThresholdFilter.processPixel, Channel.component, h, lt_irrefl]

/-- Witness for C3 at `t = 7` with the pixel `(7, 7, 7, 3)`. -/
theorem threshold_strict_at_equal_witness :
    7 ≤ 255 ∧
      ChannelThresholdFilter.processPixel .red 7 ⟨7, 7, 7, 3⟩ = ⟨0, 0, 0, 255⟩ ∧
      RgbHsvThresholdFilter.processPixel 7 ⟨7, 7, 7, 3⟩ = ⟨0, 0, 0, 255⟩ :=
  ⟨by norm_num,
   (threshold_strict_at_equal 7 (by norm_num) ⟨7, 7, 7, 3⟩).1 rfl,
   (threshold_strict_at_equal 7 (by norm_num) ⟨7, 7, 7, 3⟩).2.2.2.1 rfl⟩

/-- C4: for every input pixel and every threshold, the channel-threshold
filter's output is exactly 0 or 255 in the filter's own channel, exactly
0 in the two other color channels, and has alpha exactly 255. -/
theorem channel_threshold_binary (ch : Channel) (t : ℕ) (p : Pixel) :
    (Channel.component ch (ChannelThresholdFilter.processPixel ch t p) = 0 ∨
      Channel.component ch (ChannelThresholdFilter.processPixel ch t p) = 255) ∧
    (match ch with
      | .red => (ChannelThresholdFilter.processPixel ch t p).g = 0 ∧
          (ChannelThresholdFilter.processPixel ch t p).b = 0
      | .green => (ChannelThresholdFilter.processPixel ch t p).r = 0 ∧
          (ChannelThresholdFilter.processPixel ch t p).b = 0
      | .blue => (ChannelThresholdFilter.processPixel ch t p).r = 0 ∧
          (ChannelThresholdFilter.processPixel ch t p).g = 0) ∧
    (ChannelThresholdFilter.processPixel ch t p).a = 255 := by
  cases ch <;>
    simp [ChannelThresholdFilter.processPixel, Channel.component] <;>
    exact le_or_lt _ _

/-- C5: the RGB→YCbCr transform maps pure white to `(255, 128, 128)` and
pure black to `(0, 128, 128)` (here exactly, so in particular within the
rounding of the clamped 8-bit store), and the coefficient rows sum to
1, 0 and 0 respectively. -/
theorem ycbcr_white_black :
    (∀ a : ℕ, YCbCrFilter.processPixel ⟨255, 255, 255, a⟩ = ⟨255, 128, 128, a⟩) ∧
    (∀ a : ℕ, YCbCrFilter.processPixel ⟨0, 0, 0, a⟩ = ⟨0, 128, 128, a⟩) ∧
    RGB_TO_YCBCR.Y_R + RGB_TO_YCBCR.Y_G + RGB_TO_YCBCR.Y_B = 1 ∧
    RGB_TO_YCBCR.CB_R + RGB_TO_YCBCR.CB_G + RGB_TO_YCBCR.CB_B = 0 ∧
    RGB_TO_YCBCR.CR_R + RGB_TO_YCBCR.CR_G + RGB_TO_YCBCR.CR_B = 0 := by
  refine ⟨fun a => ?_, fun a => ?_, by norm_num [RGB_TO_YCBCR], by norm_num [RGB_TO_YCBCR],
    by norm_num [RGB_TO_YCBCR]⟩ <;>
    norm_num [YCbCrFilter.processPixel, RGB_TO_YCBCR, clampStore, roundHalfEven, toNat_lit,
      Int.toNat_zero, Int.toNat_one]

/-- C10: the hue input 255 decodes to exactly 360°, which matches none
of the six sectors of `hsvToRgb`, so the pre-add components stay
`(0, 0, 0)` and every channel of the result is
`round((v/255 − (v/255)·(s/255))·255)`; in particular
`hsvToRgb(255, 255, 255) = (0, 0, 0)`. -/
theorem hsvToRgb_hue_255_achromatic :
    (∀ s v : ℕ,
      RgbHsvFilter.hsvToRgb 255 s v =
        (jsRound (((v : ℚ) / 255 - ((v : ℚ) / 255) * ((s : ℚ) / 255)) * 255),
         jsRound (((v : ℚ) / 255 - ((v : ℚ) / 255) * ((s : ℚ) / 255)) * 255),
         jsRound (((v : ℚ) / 255 - ((v : ℚ) / 255) * ((s : ℚ) / 255)) * 255))) ∧
    RgbHsvFilter.hsvToRgb 255 255 255 = (0, 0, 0) := by
  constructor
  · intro s v
    show (jsRound _, jsRound _, jsRound _) = _
    norm_num [RgbHsvFilter.hsvToRgb]
  · show (jsRound _, jsRound _, jsRound _) = _
    norm_num [RgbHsvFilter.hsvToRgb, jsRound]

/-! ### Region effects: boundary behavior -/

/-- Pointwise unfolding of `getImageData`. -/
theorem Canvas.getImageData_apply (cv : Canvas) (x y i j : ℤ) :
    cv.getImageData x y i j =
      if cv.inBounds (x + i) (y + j) then cv.data (x + i) (y + j) else transparent := rfl

/-- Pointwise unfolding of `putImageData`. -/
theorem Canvas.putImageData_data (cv : Canvas) (img : ℤ → ℤ → Pixel) (w h : ℕ)
    (dx dy p q : ℤ) :
    (cv.putImageData img w h dx dy).data p q =
      if cv.inBounds p q ∧ dx ≤ p ∧ p < dx + (w : ℤ) ∧ dy ≤ q ∧ q < dy + (h : ℤ) then
        img (p - dx) (q - dy)
      else cv.data p q := rfl

/-- Pointwise unfolding of `drawImageRect`. -/
theorem Canvas.drawImageRect_data (cv src : Canvas) (sx sy : ℤ) (w h : ℕ) (dx dy p q : ℤ) :
    (cv.drawImageRect src sx sy w h dx dy).data p q =
      if cv.inBounds p q ∧ dx ≤ p ∧ p < dx + (w : ℤ) ∧ dy ≤ q ∧ q < dy + (h : ℤ) then
        src.getImageData sx sy (p - dx) (q - dy)
      else cv.data p q := rfl

/-- Pointwise unfolding of `fillRect`. -/
theorem Canvas.fillRect_data (cv : Canvas) (x y : ℤ) (w h : ℕ) (color : Pixel) (p q : ℤ) :
    (cv.fillRect x y w h color).data p q =
      if cv.inBounds p q ∧ x ≤ p ∧ p < x + (w : ℤ) ∧ y ≤ q ∧ q < y + (h : ℤ) then
        color
      else cv.data p q := rfl

/-- Unfolding lemma: a pixel outside the written rectangle (or outside
the canvas) is untouched by `putImageData`. -/
theorem Canvas.putImageData_data_outside (cv : Canvas) (img : ℤ → ℤ → Pixel) (w h : ℕ)
    (dx dy p q : ℤ)
    (hc : ¬(cv.inBounds p q ∧ dx ≤ p ∧ p < dx + (w : ℤ) ∧ dy ≤ q ∧ q < dy + (h : ℤ))) :
    (cv.putImageData img w h dx dy).data p q = cv.data p q := if_neg hc

/-- Unfolding lemma: a pixel outside the destination rectangle (or
outside the canvas) is untouched by `drawImageRect`. -/
theorem Canvas.drawImageRect_data_outside (cv src : Canvas) (sx sy : ℤ) (w h : ℕ)
    (dx dy p q : ℤ)
    (hc : ¬(cv.inBounds p q ∧ dx ≤ p ∧ p < dx + (w : ℤ) ∧ dy ≤ q ∧ q < dy + (h : ℤ))) :
    (cv.drawImageRect src sx sy w h dx dy).data p q = cv.data p q := if_neg hc

/-- Unfolding lemma: a pixel outside the cleared rectangle (or outside
the canvas) is untouched by `clearRect`. -/
theorem Canvas.clearRect_data_outside (cv : Canvas) (x y : ℤ) (w h : ℕ) (p q : ℤ)
    (hc : ¬(cv.inBounds p q ∧ x ≤ p ∧ p < x + (w : ℤ) ∧ y ≤ q ∧ q < y + (h : ℤ))) :
    (cv.clearRect x y w h).data p q = cv.data p q := if_neg hc

/-- Core boundary lemma shared by several claims: every one of the four
region effects leaves a destination pixel unchanged unless it lies both
inside the face region's rectangle and inside the destination canvas. -/
theorem applyEffect_data_outside (e : MaskFaceFilter.Effect) (dst src : Canvas)
    (fr : Region) (p q : ℤ)
    (h : ¬(fr.x ≤ p ∧ p < fr.x + (fr.width : ℤ) ∧ fr.y ≤ q ∧ q < fr.y + (fr.height : ℤ) ∧
      dst.inBounds p q)) :
    (MaskFaceFilter.applyEffect e dst src fr).data p q = dst.data p q := by
  have hc : ∀ w' h' : ℕ, w' = fr.width → h' = fr.height →
      ¬(dst.inBounds p q ∧ fr.x ≤ p ∧ p < fr.x + (w' : ℤ) ∧ fr.y ≤ q ∧ q < fr.y + (h' : ℤ)) := by
    rintro w' h' rfl rfl ⟨hb, h1, h2, h3, h4⟩
    exact h ⟨h1, h2, h3, h4, hb⟩
  cases e with
  | grayscale =>
    simp only [MaskFaceFilter.applyEffect, MaskFaceFilter.applyGrayscaleMask]
    exact Canvas.putImageData_data_outside _ _ _ _ _ _ _ _ (hc _ _ rfl rfl)
  | ycbcr =>
    simp only [MaskFaceFilter.applyEffect, MaskFaceFilter.applyYCbCrMask]
    exact Canvas.putImageData_data_outside _ _ _ _ _ _ _ _ (hc _ _ rfl rfl)
  | pixelate =>
    simp only [MaskFaceFilter.applyEffect, MaskFaceFilter.applyPixelateMask]
    exact Canvas.drawImageRect_data_outside _ _ _ _ _ _ _ _ _ _ (hc _ _ rfl rfl)
  | blur =>
    have hcc : ¬((dst.clearRect fr.x fr.y fr.width fr.height).inBounds p q ∧
        fr.x ≤ p ∧ p < fr.x + (fr.width : ℤ) ∧ fr.y ≤ q ∧ q < fr.y + (fr.height : ℤ)) :=
      hc fr.width fr.height rfl rfl
    simp only [MaskFaceFilter.applyEffect, MaskFaceFilter.applyBlurMask]
    rw [Canvas.drawImageRect_data_outside _ _ _ _ _ _ _ _ _ _ hcc]
    exact Canvas.clearRect_data_outside _ _ _ _ _ _ _ (hc _ _ rfl rfl)

/-- C7: each of the four region effects writes only inside the clipped
intersection of the face region with the destination canvas bounds:
every destination pixel outside that clipped region holds exactly its
previous value, for any choice of source and destination canvases. -/
theorem effects_write_only_clipped_region (e : MaskFaceFilter.Effect) (dst src : Canvas)
    (fr : Region) (p q : ℤ)
    (h : ¬(fr.x ≤ p ∧ p < fr.x + (fr.width : ℤ) ∧ fr.y ≤ q ∧ q < fr.y + (fr.height : ℤ) ∧
      dst.inBounds p q)) :
    (MaskFaceFilter.applyEffect e dst src fr).data p q = dst.data p q :=
  applyEffect_data_outside e dst src fr p q h

/-- Witness for C7: the blur effect with a region at `(1,1)` of size
`2 × 2` leaves the origin pixel of a `4 × 3` destination untouched. -/
theorem effects_write_only_clipped_region_witness :
    (MaskFaceFilter.applyEffect .blur ⟨4, 3, fun _ _ => ⟨1, 2, 3, 4⟩⟩
        ⟨4, 3, fun _ _ => ⟨9, 9, 9, 9⟩⟩ ⟨1, 1, 2, 2⟩).data 0 0 = ⟨1, 2, 3, 4⟩ :=
  effects_write_only_clipped_region .blur ⟨4, 3, fun _ _ => ⟨1, 2, 3, 4⟩⟩
    ⟨4, 3, fun _ _ => ⟨9, 9, 9, 9⟩⟩ ⟨1, 1, 2, 2⟩ 0 0 (by norm_num)

/-- C6: a region lying entirely outside the destination canvas makes
every one of the four region effects a no-op — every pixel of the
destination buffer is unchanged, with no error raised. -/
theorem region_outside_noop (e : MaskFaceFilter.Effect) (dst src : Canvas) (fr : Region)
    (h : fr.x + (fr.width : ℤ) ≤ 0 ∨ (dst.width : ℤ) ≤ fr.x ∨
      fr.y + (fr.height : ℤ) ≤ 0 ∨ (dst.height : ℤ) ≤ fr.y) :
    ∀ p q : ℤ, (MaskFaceFilter.applyEffect e dst src fr).data p q = dst.data p q := by
  intro p q
  apply applyEffect_data_outside
  rintro ⟨h1, h2, h3, h4, hb0, hbw, hb0', hbh⟩
  rcases h with h' | h' | h' | h' <;> omega

/-- Witness for C6: a region at `x = 10` entirely right of a `4 × 3`
destination leaves the pixelate effect a no-op at a sample pixel. -/
theorem region_outside_noop_witness :
    (MaskFaceFilter.applyEffect .pixelate ⟨4, 3, fun _ _ => ⟨1, 2, 3, 4⟩⟩
        ⟨4, 3, fun _ _ => ⟨9, 9, 9, 9⟩⟩ ⟨10, 0, 2, 2⟩).data 1 1 = ⟨1, 2, 3, 4⟩ :=
  region_outside_noop .pixelate ⟨4, 3, fun _ _ => ⟨1, 2, 3, 4⟩⟩
    ⟨4, 3, fun _ _ => ⟨9, 9, 9, 9⟩⟩ ⟨10, 0, 2, 2⟩ (by norm_num) 1 1

/-! ### Pixelation of a constant region -/

/-- `Math.round` of a natural number is itself. -/
theorem jsRound_natCast (n : ℕ) : jsRound (n : ℚ) = n := by
  unfold jsRound
  rw [Int.floor_eq_iff]
  constructor <;> push_cast <;> linarith

/-- Every block origin produced by the pixelation loop lies strictly
inside the region's extent. -/
theorem blockStarts_lt (n x : ℕ) (hx : x ∈ MaskFaceFilter.blockStarts n) : x < n := by
  unfold MaskFaceFilter.blockStarts at hx
  simp only [List.mem_map, List.mem_range] at hx
  obtain ⟨k, hk, rfl⟩ := hx
  simp only [BLOCK_SIZE] at hk ⊢
  omega

/-- A fold preserves any invariant preserved by each step on the list's
elements. -/
theorem foldl_invariant {β γ : Type} (P : β → Prop) (f : β → γ → β) (l : List γ)
    (hstep : ∀ t x, x ∈ l → P t → P (f t x)) (t0 : β) (h0 : P t0) :
    P (l.foldl f t0) := by
  induction l generalizing t0 with
  | nil => exact h0
  | cons x xs ih =>
    exact ih (fun t y hy ht => hstep t y (List.mem_cons_of_mem _ hy) ht)
      (f t0 x) (hstep t0 x (List.mem_cons_self _ _) h0)

/-- Invariant of the pixelation loop on the temporary canvas: it has
the region's size and carries the constant color on every in-bounds
pixel. -/
def constOn (t : Canvas) (w h r g b : ℕ) : Prop :=
  t.width = w ∧ t.height = h ∧
    ∀ i j : ℤ, 0 ≤ i → i < (w : ℤ) → 0 ≤ j → j < (h : ℤ) → t.data i j = ⟨r, g, b, 255⟩

/-- One pixelation block step on a constant canvas: the block average of
a constant block is that constant, so the `fillRect` repaints the block
with the color it already has. -/
theorem pixelateBlock_preserves (w h r g b x y : ℕ) (hx : x < w) (hy : y < h)
    (t : Canvas) (ht : constOn t w h r g b) :
    constOn (MaskFaceFilter.pixelateBlock w h t x y) w h r g b := by
  obtain ⟨htw, hth, hdata⟩ := ht
  have hread : ∀ i j : ℕ, i < min BLOCK_SIZE (w - x) → j < min BLOCK_SIZE (h - y) →
      t.getImageData (x : ℤ) (y : ℤ) (i : ℤ) (j : ℤ) = ⟨r, g, b, 255⟩ := by
    intro i j hi hj
    simp only [BLOCK_SIZE] at hi hj
    rw [Canvas.getImageData_apply, if_pos]
    · exact hdata _ _ (by positivity) (by push_cast; omega) (by positivity) (by push_cast; omega)
    · refine ⟨by positivity, ?_, by positivity, ?_⟩
      · rw [htw]; push_cast; omega
      · rw [hth]; push_cast; omega
  have havg : MaskFaceFilter.calculateAverageColor
      (t.getImageData (x : ℤ) (y : ℤ)) (min BLOCK_SIZE (w - x)) (min BLOCK_SIZE (h - y)) =
      ((r : ℤ), (g : ℤ), (b : ℤ)) := by
    set bw := min BLOCK_SIZE (w - x) with hbw
    set bh := min BLOCK_SIZE (h - y) with hbh
    have hbw0 : 0 < bw := by simp only [hbw, BLOCK_SIZE]; omega
    have hbh0 : 0 < bh := by simp only [hbh, BLOCK_SIZE]; omega
    unfold MaskFaceFilter.calculateAverageColor
    have hsum : ∀ f : Pixel → ℕ,
        (∑ j ∈ Finset.range bh, ∑ i ∈ Finset.range bw,
            f (t.getImageData (x : ℤ) (y : ℤ) (i : ℤ) (j : ℤ))) =
          bh * (bw * f ⟨r, g, b, 255⟩) := by
      intro f
      rw [Finset.sum_congr rfl fun j hj => Finset.sum_congr rfl fun i hi => by
        rw [hread i j (Finset.mem_range.mp hi) (Finset.mem_range.mp hj)]]
      simp [Finset.sum_const, Finset.card_range, mul_comm]
    simp only [hsum]
    have hdiv : ∀ c : ℕ, ((bh * (bw * c) : ℕ) : ℚ) / ((bw * bh : ℕ) : ℚ) = (c : ℚ) := by
      intro c
      have hne : ((bw * bh : ℕ) : ℚ) ≠ 0 := by positivity
      push_cast at hne ⊢
      field_simp
      ring
    simp only [hdiv]
    rw [jsRound_natCast, jsRound_natCast, jsRound_natCast]
  simp only [MaskFaceFilter.pixelateBlock]
  rw [havg]
  refine ⟨htw, hth, ?_⟩
  intro i j hi0 hiw hj0 hjh
  rw [Canvas.fillRect_data]
  simp only [Int.toNat_natCast]
  by_cases hc : t.inBounds i j ∧ (x : ℤ) ≤ i ∧ i < (x : ℤ) + (BLOCK_SIZE : ℤ) ∧
      (y : ℤ) ≤ j ∧ j < (y : ℤ) + (BLOCK_SIZE : ℤ)
  · rw [if_pos hc]
  · rw [if_neg hc]
    exact hdata i j hi0 hiw hj0 hjh

/-- Drawing a temporary canvas that carries the same constant color as
the destination's region back into that region changes nothing. -/
theorem drawBack_const (cv temp : Canvas) (fr : Region) (r g b : ℕ)
    (hw : temp.width = fr.width) (hh : temp.height = fr.height)
    (hdata : ∀ i j : ℤ, 0 ≤ i → i < (fr.width : ℤ) → 0 ≤ j → j < (fr.height : ℤ) →
      temp.data i j = ⟨r, g, b, 255⟩)
    (hconst : ∀ i j : ℤ, 0 ≤ i → i < (fr.width : ℤ) → 0 ≤ j → j < (fr.height : ℤ) →
      cv.data (fr.x + i) (fr.y + j) = ⟨r, g, b, 255⟩)
    (p q : ℤ) :
    (cv.drawImageRect temp 0 0 fr.width fr.height fr.x fr.y).data p q = cv.data p q := by
  rw [Canvas.drawImageRect_data]
  by_cases hc : cv.inBounds p q ∧ fr.x ≤ p ∧ p < fr.x + (fr.width : ℤ) ∧ fr.y ≤ q ∧
      q < fr.y + (fr.height : ℤ)
  · obtain ⟨hb, h1, h2, h3, h4⟩ := hc
    rw [if_pos ⟨hb, h1, h2, h3, h4⟩]
    rw [Canvas.getImageData_apply]
    rw [if_pos (by unfold Canvas.inBounds; rw [hw, hh]; omega)]
    rw [hdata _ _ (by omega) (by omega) (by omega) (by omega)]
    rw [show cv.data p q = cv.data (fr.x + (p - fr.x)) (fr.y + (q - fr.y)) by ring_nf]
    rw [hconst _ _ (by omega) (by omega) (by omega) (by omega)]
  · rw [if_neg hc]

/-- C8: applying the pixelate effect to a region whose pixels all carry
one single color `(r, g, b)` (fully opaque, region inside the canvas)
leaves every pixel unchanged: each block's arithmetic mean — including
the smaller partial blocks at the right and bottom edges, averaged over
their actually-present pixels only — equals that constant. -/
theorem pixelate_constant_region_identity (cv : Canvas) (fr : Region) (r g b : ℕ)
    (hx : 0 ≤ fr.x) (hxw : fr.x + (fr.width : ℤ) ≤ (cv.width : ℤ))
    (hy : 0 ≤ fr.y) (hyh : fr.y + (fr.height : ℤ) ≤ (cv.height : ℤ))
    (hconst : ∀ i j : ℤ, 0 ≤ i → i < (fr.width : ℤ) → 0 ≤ j → j < (fr.height : ℤ) →
      cv.data (fr.x + i) (fr.y + j) = ⟨r, g, b, 255⟩) :
    ∀ p q : ℤ, (MaskFaceFilter.applyPixelateMask cv cv fr).data p q = cv.data p q := by
  intro p q
  have h0 : constOn ((Canvas.blank fr.width fr.height).drawImageRect cv fr.x fr.y
      fr.width fr.height 0 0) fr.width fr.height r g b := by
    refine ⟨rfl, rfl, ?_⟩
    intro i j hi0 hiw hj0 hjh
    rw [Canvas.drawImageRect_data,
      if_pos ⟨⟨hi0, hiw, hj0, hjh⟩, by omega, by omega, by omega, by omega⟩,
      Canvas.getImageData_apply, if_pos ⟨by omega, by omega, by omega, by omega⟩]
    have e1 : fr.x + (i - 0) = fr.x + i := by ring
    have e2 : fr.y + (j - 0) = fr.y + j := by ring
    rw [e1, e2]
    exact hconst i j hi0 hiw hj0 hjh
  have hinv : constOn ((MaskFaceFilter.blockStarts fr.height).foldl
      (fun t y => (MaskFaceFilter.blockStarts fr.width).foldl
        (fun t' x => MaskFaceFilter.pixelateBlock fr.width fr.height t' x y) t)
      ((Canvas.blank fr.width fr.height).drawImageRect cv fr.x fr.y fr.width fr.height 0 0))
      fr.width fr.height r g b := by
    refine foldl_invariant (fun t => constOn t fr.width fr.height r g b) _ _ ?_ _ h0
    intro t yb hyb ht
    refine foldl_invariant (fun t => constOn t fr.width fr.height r g b) _ _ ?_ _ ht
    intro t' xb hxb ht'
    exact pixelateBlock_preserves fr.width fr.height r g b xb yb
      (blockStarts_lt _ _ hxb) (blockStarts_lt _ _ hyb) t' ht'
  obtain ⟨hw, hh, hdata⟩ := hinv
  exact drawBack_const cv _ fr r g b hw hh hdata hconst p q

/-- Witness for C8: an `8 × 6` canvas constantly `(10, 20, 30, 255)`
with a `6 × 4` region at `(1, 1)` (so the block grid has partial blocks
at both edges) is left pointwise unchanged; sampled at `(2, 2)`. -/
theorem pixelate_constant_region_identity_witness :
    (MaskFaceFilter.applyPixelateMask ⟨8, 6, fun _ _ => ⟨10, 20, 30, 255⟩⟩
        ⟨8, 6, fun _ _ => ⟨10, 20, 30, 255⟩⟩ ⟨1, 1, 6, 4⟩).data 2 2 = ⟨10, 20, 30, 255⟩ :=
  pixelate_constant_region_identity ⟨8, 6, fun _ _ => ⟨10, 20, 30, 255⟩⟩ ⟨1, 1, 6, 4⟩
    10 20 30 (by norm_num) (by norm_num) (by norm_num) (by norm_num)
    (fun _ _ _ _ _ _ => rfl) 2 2

/-- C2 counterexample: a three-filter cycle over `ℕ`-valued buffers in
which the second filter throws.  The orchestrator's single
`try`/`catch` yields buffers `[11, 10, 0]` with the failure logged: the
third filter never runs (its buffer keeps the stale previous value `0`,
not its output `12`), and the throwing filter's buffer holds the drawn
source `10`, not its previous contents `0`. -/
theorem cycle_failure_counterexample :
    Orchestrator.runCycle
        [fun s => some (s + 1), fun _ => none, fun s => some (s + 2)] 10 [0, 0, 0] =
      ([11, 10, 0], true) ∧
    ¬ ((Orchestrator.runCycle
        [fun s => some (s + 1), fun _ => none, fun s => some (s + 2)] 10 [0, 0, 0]).1 =
      [11, 0, 12]) := by
  constructor
  · rfl
  · intro h
    have e : (Orchestrator.runCycle
        [fun s => some (s + 1), fun _ => none, fun s => some (s + 2)] 10 [0, 0, 0]).1 =
        [11, 10, 0] := rfl
    rw [e] at h
    simp at h

/-- C2 as amended: when the filters before `f` all succeed on the drawn
source (producing `outs`) and `f` throws, the cycle stops at `f`; the
failure is caught and logged at the orchestrator boundary (the cycle
returns normally with the logged flag set), the filters after `f` do
not run — their buffers keep their previous contents — and `f`'s own
buffer holds the freshly drawn source frame rather than its previous
contents. -/
theorem cycle_failure_policy {α : Type} (fs₁ fs₂ : List (α → Option α))
    (f : α → Option α) (src : α) (outs : List α) (bufs₁ bufs₂ : List α) (b : α)
    (hlen : bufs₁.length = fs₁.length)
    (houts : fs₁.map (fun g => g src) = outs.map some)
    (hf : f src = none) :
    Orchestrator.runCycle (fs₁ ++ f :: fs₂) src (bufs₁ ++ b :: bufs₂) =
      (outs ++ src :: bufs₂, true) := by
  induction fs₁ generalizing outs bufs₁ with
  | nil =>
    have houts' : outs = [] := by
      cases outs with
      | nil => rfl
      | cons o os => simp at houts
    have hbufs : bufs₁ = [] := List.length_eq_zero.mp (by simp [hlen])
    subst houts'; subst hbufs
    simp [Orchestrator.runCycle, hf]
  | cons g gs ih =>
    cases outs with
    | nil => simp at houts
    | cons o os =>
      cases bufs₁ with
      | nil => simp at hlen
      | cons c cs =>
        simp only [List.map_cons, List.cons.injEq] at houts
        have hg : g src = some o := houts.1
        simp only [List.cons_append, Orchestrator.runCycle, hg, List.append_eq]
        rw [ih os cs (by simpa using hlen) houts.2]

/-- Witness for C2's amended failure policy: two succeeding filters
around a throwing one, with concrete buffers. -/
theorem cycle_failure_policy_witness :
    Orchestrator.runCycle
        [fun s => some (s + 1), fun _ => none, fun s => some (s + 3)] (10 : ℕ) [0, 7, 9] =
      ([11, 10, 9], true) :=
  cycle_failure_policy [fun s => some (s + 1)] [fun s => some (s + 3)]
    (fun _ => none) 10 [11] [0] [9] 7 rfl rfl rfl

/-- C9: one pipeline cycle is a deterministic function of the source
frame and the live threshold values — its twelve output surfaces do not
depend on the previous contents of any output buffer, so running the
cycle twice in succession with an unchanged source frame and unchanged
thresholds produces byte-identical surface contents. -/
theorem pipeline_cycle_deterministic (st₁ st₂ : Pipeline.AppState)
    (webcam : ℤ → ℤ → Pixel) (th : Pipeline.Thresholds) (p q : ℤ)
    (hpq : Pipeline.inFrame p q) :
    (Pipeline.processImage st₁ webcam th).grayscale p q =
      (Pipeline.processImage st₂ webcam th).grayscale p q ∧
    (Pipeline.processImage st₁ webcam th).webcamRepeat p q =
      (Pipeline.processImage st₂ webcam th).webcamRepeat p q ∧
    (Pipeline.processImage st₁ webcam th).redChannel p q =
      (Pipeline.processImage st₂ webcam th).redChannel p q ∧
    (Pipeline.processImage st₁ webcam th).greenChannel p q =
      (Pipeline.processImage st₂ webcam th).greenChannel p q ∧
    (Pipeline.processImage st₁ webcam th).blueChannel p q =
      (Pipeline.processImage st₂ webcam th).blueChannel p q ∧
    (Pipeline.processImage st₁ webcam th).redThreshold p q =
      (Pipeline.processImage st₂ webcam th).redThreshold p q ∧
    (Pipeline.processImage st₁ webcam th).greenThreshold p q =
      (Pipeline.processImage st₂ webcam th).greenThreshold p q ∧
    (Pipeline.processImage st₁ webcam th).blueThreshold p q =
      (Pipeline.processImage st₂ webcam th).blueThreshold p q ∧
    (Pipeline.processImage st₁ webcam th).rgbHsv p q =
      (Pipeline.processImage st₂ webcam th).rgbHsv p q ∧
    (Pipeline.processImage st₁ webcam th).rgbHsvThreshold p q =
      (Pipeline.processImage st₂ webcam th).rgbHsvThreshold p q ∧
    (Pipeline.processImage st₁ webcam th).ycbcr p q =
      (Pipeline.processImage st₂ webcam th).ycbcr p q ∧
    (Pipeline.processImage st₁ webcam th).ycbcrThreshold p q =
      (Pipeline.processImage st₂ webcam th).ycbcrThreshold p q := by
  simp [Pipeline.processImage, Pipeline.processCanvas, hpq]

/-- Witness for C9 at the origin pixel with two different previous
states. -/
theorem pipeline_cycle_deterministic_witness :
    Pipeline.inFrame 0 0 ∧
      (Pipeline.processImage
          ⟨fun _ _ => ⟨1, 2, 3, 4⟩, fun _ _ => ⟨1, 2, 3, 4⟩, fun _ _ => ⟨1, 2, 3, 4⟩,
           fun _ _ => ⟨1, 2, 3, 4⟩, fun _ _ => ⟨1, 2, 3, 4⟩, fun _ _ => ⟨1, 2, 3, 4⟩,
           fun _ _ => ⟨1, 2, 3, 4⟩, fun _ _ => ⟨1, 2, 3, 4⟩, fun _ _ => ⟨1, 2, 3, 4⟩,
           fun _ _ => ⟨1, 2, 3, 4⟩, fun _ _ => ⟨1, 2, 3, 4⟩, fun _ _ => ⟨1, 2, 3, 4⟩⟩
          (fun _ _ => ⟨9, 9, 9, 255⟩) ⟨128, 128, 128, 128, 128⟩).grayscale 0 0 =
        (Pipeline.processImage
          ⟨fun _ _ => ⟨5, 6, 7, 8⟩, fun _ _ => ⟨5, 6, 7, 8⟩, fun _ _ => ⟨5, 6, 7, 8⟩,
           fun _ _ => ⟨5, 6, 7, 8⟩, fun _ _ => ⟨5, 6, 7, 8⟩, fun _ _ => ⟨5, 6, 7, 8⟩,
           fun _ _ => ⟨5, 6, 7, 8⟩, fun _ _ => ⟨5, 6, 7, 8⟩, fun _ _ => ⟨5, 6, 7, 8⟩,
           fun _ _ => ⟨5, 6, 7, 8⟩, fun _ _ => ⟨5, 6, 7, 8⟩, fun _ _ => ⟨5, 6, 7, 8⟩⟩
          (fun _ _ => ⟨9, 9, 9, 255⟩) ⟨128, 128, 128, 128, 128⟩).grayscale 0 0 :=
  ⟨by norm_num [Pipeline.inFrame, CANVAS_WIDTH, CANVAS_HEIGHT],
   (pipeline_cycle_deterministic _ _ _ _ 0 0
     (by norm_num [Pipeline.inFrame, CANVAS_WIDTH, CANVAS_HEIGHT])).1⟩

/-! ### HSV round trip: rounding toolkit -/

theorem roundHalfEven_le (q : ℚ) : (roundHalfEven q : ℚ) ≤ q + 1/2 := by
  unfold roundHalfEven
  have hfl := Int.floor_le q
  have hlt := Int.lt_floor_add_one q
  split_ifs with h1 h2 h3 <;> push_cast <;> linarith

theorem roundHalfEven_ge (q : ℚ) : q - 1/2 ≤ (roundHalfEven q : ℚ) := by
  unfold roundHalfEven
  have hfl := Int.floor_le q
  have hlt := Int.lt_floor_add_one q
  split_ifs with h1 h2 h3 <;> push_cast <;> linarith

theorem roundHalfEven_intCast (n : ℤ) : roundHalfEven (n : ℚ) = n := by
  unfold roundHalfEven
  rw [Int.floor_intCast]
  rw [if_pos (by norm_num)]

theorem roundHalfEven_tie_even (n : ℤ) (hn : n % 2 = 0) :
    roundHalfEven ((n : ℚ) + 1/2) = n := by
  unfold roundHalfEven
  have hf : ⌊(n : ℚ) + 1/2⌋ = n := by
    rw [add_comm, Int.floor_add_int]
    norm_num
  rw [hf, if_neg (by norm_num), if_neg (by norm_num), if_pos hn]

theorem roundHalfEven_nonneg (q : ℚ) (h : 0 ≤ q) : 0 ≤ roundHalfEven q := by
  have hge := roundHalfEven_ge q
  have : (-1 : ℚ) < (roundHalfEven q : ℚ) := by linarith
  have : (-1 : ℤ) < roundHalfEven q := by exact_mod_cast this
  omega

theorem roundHalfEven_le_of_le_half (q : ℚ) (n : ℤ) (hn : n % 2 = 0)
    (h : q ≤ (n : ℚ) + 1/2) : roundHalfEven q ≤ n := by
  by_contra hlt
  push_neg at hlt
  have h1 := roundHalfEven_le q
  have hcast : ((n : ℚ) + 1) ≤ (roundHalfEven q : ℚ) := by exact_mod_cast hlt
  have hq : q = (n : ℚ) + 1/2 := by linarith
  rw [hq, roundHalfEven_tie_even n hn] at hlt
  omega

theorem roundHalfEven_ge_of_half_lt (q : ℚ) (n : ℤ) (h : (n : ℚ) + 1/2 < q) :
    n + 1 ≤ roundHalfEven q := by
  have hge := roundHalfEven_ge q
  have : ((n : ℤ) : ℚ) < (roundHalfEven q : ℚ) := by push_cast; linarith
  have : (n : ℤ) < roundHalfEven q := by exact_mod_cast this
  omega

theorem roundHalfEven_abs_le (q : ℚ) : |(roundHalfEven q : ℚ) - q| ≤ 1/2 :=
  abs_le.mpr ⟨by linarith [roundHalfEven_ge q], by linarith [roundHalfEven_le q]⟩

theorem clampStore_cast (q : ℚ) (h0 : 0 ≤ q) (h255 : q ≤ 255) :
    ((clampStore q : ℕ) : ℤ) = roundHalfEven q := by
  unfold clampStore
  split_ifs with h1 h2
  · have hq : q = 0 := le_antisymm h1 h0
    rw [hq, show (0 : ℚ) = ((0 : ℤ) : ℚ) by norm_num, roundHalfEven_intCast]
    rfl
  · have hq : q = 255 := le_antisymm h255 h2
    rw [hq, show (255 : ℚ) = ((255 : ℤ) : ℚ) by norm_num, roundHalfEven_intCast]
    rfl
  · rw [Int.toNat_of_nonneg (roundHalfEven_nonneg q h0)]

theorem clampStore_natCast (n : ℕ) (h : n ≤ 255) : clampStore (n : ℚ) = n := by
  have h0 : (0 : ℚ) ≤ (n : ℚ) := by positivity
  have h255 : (n : ℚ) ≤ 255 := by exact_mod_cast h
  have := clampStore_cast (n : ℚ) h0 h255
  rw [show ((n : ℕ) : ℚ) = ((n : ℤ) : ℚ) by push_cast; ring, roundHalfEven_intCast] at this
  exact_mod_cast this

theorem jsRound_le (q : ℚ) : (jsRound q : ℚ) ≤ q + 1/2 := Int.floor_le _

theorem jsRound_gt (q : ℚ) : q - 1/2 < (jsRound q : ℚ) := by
  have := Int.lt_floor_add_one (q + 1/2)
  unfold jsRound
  linarith

theorem jsRound_intCast (n : ℤ) : jsRound (n : ℚ) = n := by
  unfold jsRound
  rw [add_comm, Int.floor_add_int]
  norm_num

theorem jsRound_close (q : ℚ) (n : ℤ) (h : |q - n| ≤ 7/2) (hne : q - n ≠ 7/2) :
    |jsRound q - n| ≤ 3 := by
  rw [abs_le] at h ⊢
  have h1 := jsRound_le q
  have h2 := jsRound_gt q
  constructor
  · have hlo : ((n : ℚ) - 4) < (jsRound q : ℚ) := by linarith
    have : (n - 4 : ℤ) < jsRound q := by exact_mod_cast hlo
    omega
  · have hlt : q - n < 7/2 := lt_of_le_of_ne h.2 hne
    have hhi : (jsRound q : ℚ) < (n : ℚ) + 4 := by linarith
    have : (jsRound q : ℤ) < n + 4 := by exact_mod_cast hhi
    omega

theorem jsRound_close_one (q : ℚ) (n : ℤ) (h : |q - n| ≤ 1/2) : |jsRound q - n| ≤ 1 := by
  rw [abs_le] at h ⊢
  have h1 := jsRound_le q
  have h2 := jsRound_gt q
  constructor
  · have hlo : ((n : ℚ) - 2) < (jsRound q : ℚ) := by linarith
    have : (n - 2 : ℤ) < jsRound q := by exact_mod_cast hlo
    omega
  · have hhi : (jsRound q : ℚ) ≤ (n : ℚ) + 1 := by linarith
    have : (jsRound q : ℤ) ≤ n + 1 := by exact_mod_cast hhi
    omega

theorem jsMod_of_abs_lt (a b : ℚ) (hb : 0 < b) (h : |a| < b) : jsMod a b = a := by
  unfold jsMod jsTrunc
  rw [abs_lt] at h
  rcases le_or_lt 0 (a / b) with hab | hab
  · rw [if_pos hab]
    have hfl : ⌊a / b⌋ = 0 := by
      rw [Int.floor_eq_iff]
      constructor
      · exact_mod_cast hab
      · push_cast
        have : a / b < 1 := by
          rw [div_lt_one hb]
          linarith
        linarith
    rw [hfl]
    push_cast
    ring
  · rw [if_neg (not_le.mpr hab)]
    have hfl : ⌊-(a / b)⌋ = 0 := by
      rw [Int.floor_eq_iff]
      constructor
      · push_cast
        linarith
      · push_cast
        have hneg : -a / b < 1 := by
          rw [div_lt_one hb]
          linarith
        have heq : -(a / b) = -a / b := (neg_div b a).symm
        linarith [heq ▸ hneg]
    rw [hfl]
    push_cast
    ring

theorem jsMod_two_sub (q : ℚ) (k : ℕ) (h1 : 2 * k ≤ q) (h2 : q < 2 * k + 2) :
    jsMod q 2 = q - 2 * k := by
  unfold jsMod jsTrunc
  have hq0 : (0 : ℚ) ≤ q := by
    have : (0 : ℚ) ≤ 2 * (k : ℚ) := by positivity
    linarith
  rw [if_pos (div_nonneg hq0 (by norm_num))]
  have hfl : ⌊q / 2⌋ = (k : ℤ) := by
    rw [Int.floor_eq_iff]
    constructor
    · push_cast
      linarith
    · push_cast
      rw [div_lt_iff (by norm_num : (0:ℚ) < 2)]
      linarith
  rw [hfl]
  push_cast
  ring

/-! ### HSV round trip: decoding by hue sector

`hsvToRgb` on a stored hue byte `h8` decodes the hue to
`h = h8·(360/255)` degrees, so the 60°-sector containing `h` is decided
by `2·h8` against multiples of 85. -/

namespace RgbHsvFilter

theorem decode_s0 (h8 s8 v8 : ℕ) (hhi : 2 * h8 < 85) :
    hsvToRgb h8 s8 v8 =
      ((v8 : ℤ),
       jsRound ((v8 : ℚ) - (v8 : ℚ) * (s8 : ℚ) / 255 * (1 - 2 * (h8 : ℚ) / 85)),
       jsRound ((v8 : ℚ) - (v8 : ℚ) * (s8 : ℚ) / 255)) := by
  have hhi' : 2 * (h8 : ℚ) < 85 := by exact_mod_cast hhi
  have hq0 : (0 : ℚ) ≤ (h8 : ℚ) / 255 * 360 := by positivity
  have hq60 : (h8 : ℚ) / 255 * 360 < 60 := by linarith
  simp only [hsvToRgb]
  rw [if_pos ⟨hq0, hq60⟩]
  rw [jsMod_two_sub ((h8 : ℚ) / 255 * 360 / 60) 0 (by push_cast; nlinarith [hq0]) (by push_cast; linarith)]
  rw [abs_of_nonpos (by push_cast; linarith)]
  simp only [Prod.mk.injEq]
  refine ⟨?_, ?_, ?_⟩
  · rw [show ((v8 : ℚ) / 255 * ((s8 : ℚ) / 255) +
        ((v8 : ℚ) / 255 - (v8 : ℚ) / 255 * ((s8 : ℚ) / 255))) * 255 = ((v8 : ℕ) : ℚ) by
      push_cast; ring]
    exact jsRound_natCast v8
  · congr 1
    push_cast
    ring
  · congr 1
    push_cast
    ring

theorem decode_s1 (h8 s8 v8 : ℕ) (hlo : 85 ≤ 2 * h8) (hhi : 2 * h8 < 170) :
    hsvToRgb h8 s8 v8 =
      (jsRound ((v8 : ℚ) - (v8 : ℚ) * (s8 : ℚ) / 255 * (2 * (h8 : ℚ) / 85 - 1)),
       (v8 : ℤ),
       jsRound ((v8 : ℚ) - (v8 : ℚ) * (s8 : ℚ) / 255)) := by
  have hlo' : (85 : ℚ) ≤ 2 * (h8 : ℚ) := by exact_mod_cast hlo
  have hhi' : 2 * (h8 : ℚ) < 170 := by exact_mod_cast hhi
  simp only [hsvToRgb]
  rw [if_neg (by rintro ⟨h1c, h2c⟩; linarith), if_pos ⟨by linarith, by linarith⟩]
  rw [jsMod_two_sub ((h8 : ℚ) / 255 * 360 / 60) 0 (by push_cast; nlinarith [hlo'])
    (by push_cast; linarith)]
  rw [abs_of_nonneg (by push_cast; linarith)]
  simp only [Prod.mk.injEq]
  refine ⟨?_, ?_, ?_⟩
  · congr 1
    push_cast
    ring
  · rw [show ((v8 : ℚ) / 255 * ((s8 : ℚ) / 255) +
        ((v8 : ℚ) / 255 - (v8 : ℚ) / 255 * ((s8 : ℚ) / 255))) * 255 = ((v8 : ℕ) : ℚ) by
      push_cast; ring]
    exact jsRound_natCast v8
  · congr 1
    push_cast
    ring

theorem decode_s2 (h8 s8 v8 : ℕ) (hlo : 170 ≤ 2 * h8) (hhi : 2 * h8 < 255) :
    hsvToRgb h8 s8 v8 =
      (jsRound ((v8 : ℚ) - (v8 : ℚ) * (s8 : ℚ) / 255),
       (v8 : ℤ),
       jsRound ((v8 : ℚ) - (v8 : ℚ) * (s8 : ℚ) / 255 * (3 - 2 * (h8 : ℚ) / 85))) := by
  have hlo' : (170 : ℚ) ≤ 2 * (h8 : ℚ) := by exact_mod_cast hlo
  have hhi' : 2 * (h8 : ℚ) < 255 := by exact_mod_cast hhi
  simp only [hsvToRgb]
  rw [if_neg (by rintro ⟨h1c, h2c⟩; linarith), if_neg (by rintro ⟨h1c, h2c⟩; linarith),
    if_pos ⟨by linarith, by linarith⟩]
  rw [jsMod_two_sub ((h8 : ℚ) / 255 * 360 / 60) 1 (by push_cast; linarith)
    (by push_cast; linarith)]
  rw [abs_of_nonpos (by push_cast; linarith)]
  simp only [Prod.mk.injEq]
  refine ⟨?_, ?_, ?_⟩
  · congr 1
    push_cast
    ring
  · rw [show ((v8 : ℚ) / 255 * ((s8 : ℚ) / 255) +
        ((v8 : ℚ) / 255 - (v8 : ℚ) / 255 * ((s8 : ℚ) / 255))) * 255 = ((v8 : ℕ) : ℚ) by
      push_cast; ring]
    exact jsRound_natCast v8
  · congr 1
    push_cast
    ring

theorem decode_s3 (h8 s8 v8 : ℕ) (hlo : 255 ≤ 2 * h8) (hhi : 2 * h8 < 340) :
    hsvToRgb h8 s8 v8 =
      (jsRound ((v8 : ℚ) - (v8 : ℚ) * (s8 : ℚ) / 255),
       jsRound ((v8 : ℚ) - (v8 : ℚ) * (s8 : ℚ) / 255 * (2 * (h8 : ℚ) / 85 - 3)),
       (v8 : ℤ)) := by
  have hlo' : (255 : ℚ) ≤ 2 * (h8 : ℚ) := by exact_mod_cast hlo
  have hhi' : 2 * (h8 : ℚ) < 340 := by exact_mod_cast hhi
  simp only [hsvToRgb]
  rw [if_neg (by rintro ⟨h1c, h2c⟩; linarith), if_neg (by rintro ⟨h1c, h2c⟩; linarith),
    if_neg (by rintro ⟨h1c, h2c⟩; linarith), if_pos ⟨by linarith, by linarith⟩]
  rw [jsMod_two_sub ((h8 : ℚ) / 255 * 360 / 60) 1 (by push_cast; linarith)
    (by push_cast; linarith)]
  rw [abs_of_nonneg (by push_cast; linarith)]
  simp only [Prod.mk.injEq]
  refine ⟨?_, ?_, ?_⟩
  · congr 1
    push_cast
    ring
  · congr 1
    push_cast
    ring
  · rw [show ((v8 : ℚ) / 255 * ((s8 : ℚ) / 255) +
        ((v8 : ℚ) / 255 - (v8 : ℚ) / 255 * ((s8 : ℚ) / 255))) * 255 = ((v8 : ℕ) : ℚ) by
      push_cast; ring]
    exact jsRound_natCast v8

theorem decode_s4 (h8 s8 v8 : ℕ) (hlo : 340 ≤ 2 * h8) (hhi : 2 * h8 < 425) :
    hsvToRgb h8 s8 v8 =
      (jsRound ((v8 : ℚ) - (v8 : ℚ) * (s8 : ℚ) / 255 * (5 - 2 * (h8 : ℚ) / 85)),
       jsRound ((v8 : ℚ) - (v8 : ℚ) * (s8 : ℚ) / 255),
       (v8 : ℤ)) := by
  have hlo' : (340 : ℚ) ≤ 2 * (h8 : ℚ) := by exact_mod_cast hlo
  have hhi' : 2 * (h8 : ℚ) < 425 := by exact_mod_cast hhi
  simp only [hsvToRgb]
  rw [if_neg (by rintro ⟨h1c, h2c⟩; linarith), if_neg (by rintro ⟨h1c, h2c⟩; linarith),
    if_neg (by rintro ⟨h1c, h2c⟩; linarith), if_neg (by rintro ⟨h1c, h2c⟩; linarith),
    if_pos ⟨by linarith, by linarith⟩]
  rw [jsMod_two_sub ((h8 : ℚ) / 255 * 360 / 60) 2 (by push_cast; linarith)
    (by push_cast; linarith)]
  rw [abs_of_nonpos (by push_cast; linarith)]
  simp only [Prod.mk.injEq]
  refine ⟨?_, ?_, ?_⟩
  · congr 1
    push_cast
    ring
  · congr 1
    push_cast
    ring
  · rw [show ((v8 : ℚ) / 255 * ((s8 : ℚ) / 255) +
        ((v8 : ℚ) / 255 - (v8 : ℚ) / 255 * ((s8 : ℚ) / 255))) * 255 = ((v8 : ℕ) : ℚ) by
      push_cast; ring]
    exact jsRound_natCast v8

end RgbHsvFilter

/-! ### HSV round trip: the encoder by channel ordering -/

theorem clampStore_eq_toNat (q : ℚ) (h0 : 0 ≤ q) (h255 : q ≤ 255) :
    clampStore q = (roundHalfEven q).toNat := by
  have h := clampStore_cast q h0 h255
  omega

namespace RgbHsvFilter

/-- `processImageData` on a pixel whose red channel is the (JS-selected)
maximum with `g ≥ b`: the stored hue is `round(42.5·(g−b)/(r−b))`, the
stored saturation `round(255·(r−b)/r)` and the stored value `r`. -/
theorem encode_rmax (r g b a : ℕ) (hr : r ≤ 255) (hgr : g ≤ r) (hbg : b ≤ g) (hbr : b < r) :
    processPixel ⟨r, g, b, a⟩ =
      ⟨(roundHalfEven (85 * ((g : ℚ) - b) / (2 * ((r : ℚ) - b)))).toNat,
       (roundHalfEven (255 * ((r : ℚ) - b) / r)).toNat,
       r, a⟩ := by
  have hbr' : (b : ℚ) < r := by exact_mod_cast hbr
  have hbg' : (b : ℚ) ≤ g := by exact_mod_cast hbg
  have hgr' : (g : ℚ) ≤ r := by exact_mod_cast hgr
  have hr' : (r : ℚ) ≤ 255 := by exact_mod_cast hr
  have hrne : (r : ℚ) - b ≠ 0 := by linarith
  have hrpos : (0 : ℚ) < r := by linarith [Nat.cast_nonneg (α := ℚ) b]
  simp only [processPixel]
  have hmaxgb : max ((g : ℚ) / 255) ((b : ℚ) / 255) = (g : ℚ) / 255 :=
    max_eq_left (by gcongr)
  have hmingb : min ((g : ℚ) / 255) ((b : ℚ) / 255) = (b : ℚ) / 255 :=
    min_eq_right (by gcongr)
  have hmax : max ((r : ℚ) / 255) (max ((g : ℚ) / 255) ((b : ℚ) / 255)) = (r : ℚ) / 255 := by
    rw [hmaxgb]
    exact max_eq_left (by gcongr)
  have hmin : min ((r : ℚ) / 255) (min ((g : ℚ) / 255) ((b : ℚ) / 255)) = (b : ℚ) / 255 := by
    rw [hmingb]
    exact min_eq_right (by gcongr)
  rw [hmax, hmin]
  have hdiff : (r : ℚ) / 255 - (b : ℚ) / 255 ≠ 0 := by
    intro hd
    apply hrne
    have : (r : ℚ) = b := by linarith
    linarith
  rw [if_pos hdiff, if_pos rfl]
  have harg : ((g : ℚ) / 255 - (b : ℚ) / 255) / ((r : ℚ) / 255 - (b : ℚ) / 255) =
      ((g : ℚ) - b) / ((r : ℚ) - b) := by
    rw [div_eq_div_iff (by intro hd; exact hdiff (by linarith)) hrne]
    ring
  rw [harg]
  have ht0 : (0 : ℚ) ≤ ((g : ℚ) - b) / ((r : ℚ) - b) :=
    div_nonneg (by linarith) (by linarith)
  have ht1 : ((g : ℚ) - b) / ((r : ℚ) - b) ≤ 1 := by
    rw [div_le_one (by linarith)]
    linarith
  rw [jsMod_of_abs_lt _ 6 (by norm_num) (by rw [abs_of_nonneg ht0]; linarith)]
  have hne0 : (r : ℚ) / 255 ≠ 0 := by positivity
  rw [if_neg hne0]
  refine Pixel.mk.injEq _ _ _ _ _ _ _ _ ▸ ⟨?_, ?_, ?_, rfl⟩
  · rw [show 60 * (((g : ℚ) - b) / ((r : ℚ) - b)) * 255 / 360 =
      85 * ((g : ℚ) - b) / (2 * ((r : ℚ) - b)) by
        rw [show (60 : ℚ) * (((g : ℚ) - b) / ((r : ℚ) - b)) * 255 / 360 =
          85 / 2 * (((g : ℚ) - b) / ((r : ℚ) - b)) by ring, div_mul_div_comm]]
    exact clampStore_eq_toNat _ (div_nonneg (by linarith) (by linarith)) (by
      have h85 : 85 * ((g : ℚ) - b) / (2 * ((r : ℚ) - b)) =
          (85 / 2) * (((g : ℚ) - b) / ((r : ℚ) - b)) :=
        (div_mul_div_comm 85 2 ((g : ℚ) - b) ((r : ℚ) - b)).symm
      rw [h85]
      nlinarith)
  · rw [show ((r : ℚ) / 255 - (b : ℚ) / 255) / ((r : ℚ) / 255) * 255 =
      255 * ((r : ℚ) - b) / r by
        field_simp
        ring]
    exact clampStore_eq_toNat _ (div_nonneg (by linarith) (by linarith)) (by
      rw [div_le_iff hrpos]
      linarith)
  · rw [show (r : ℚ) / 255 * 255 = ((r : ℕ) : ℚ) by field_simp]
    exact clampStore_natCast r hr

/-- `processImageData` on a pixel whose green channel is the strict
maximum over red (with `b ≤ g`): hue sector `+2`. -/
theorem encode_gmax (r g b a : ℕ) (hg : g ≤ 255) (hrg : r < g) (hbg : b ≤ g) :
    processPixel ⟨r, g, b, a⟩ =
      ⟨(roundHalfEven (85 * ((b : ℚ) - r) / (2 * ((g : ℚ) - ((min r b : ℕ) : ℚ))) + 85)).toNat,
       (roundHalfEven (255 * ((g : ℚ) - ((min r b : ℕ) : ℚ)) / g)).toNat, g, a⟩ := by
  have hrg' : (r : ℚ) < g := by exact_mod_cast hrg
  have hbg' : (b : ℚ) ≤ g := by exact_mod_cast hbg
  have hg' : (g : ℚ) ≤ 255 := by exact_mod_cast hg
  have hmr : ((min r b : ℕ) : ℚ) ≤ r := by exact_mod_cast min_le_left r b
  have hmb : ((min r b : ℕ) : ℚ) ≤ b := by exact_mod_cast min_le_right r b
  have hD : (0 : ℚ) < (g : ℚ) - ((min r b : ℕ) : ℚ) := by linarith
  have hDne : (g : ℚ) - ((min r b : ℕ) : ℚ) ≠ 0 := ne_of_gt hD
  have hgpos : (0 : ℚ) < g := by linarith [Nat.cast_nonneg (α := ℚ) r]
  simp only [processPixel]
  have h255 : (0 : ℚ) < 255 := by norm_num
  have hmax : max ((r : ℚ) / 255) (max ((g : ℚ) / 255) ((b : ℚ) / 255)) = (g : ℚ) / 255 := by
    rw [max_eq_left ((div_le_div_iff_of_pos_right h255).mpr hbg')]
    exact max_eq_right ((div_le_div_iff_of_pos_right h255).mpr (le_of_lt hrg'))
  have hmin : min ((r : ℚ) / 255) (min ((g : ℚ) / 255) ((b : ℚ) / 255)) =
      ((min r b : ℕ) : ℚ) / 255 := by
    rw [min_eq_right ((div_le_div_iff_of_pos_right h255).mpr hbg'), Nat.cast_min]
    exact min_div_div_right (by norm_num : (0 : ℚ) ≤ 255) (r : ℚ) (b : ℚ)
  rw [hmax, hmin]
  have hdiff : (g : ℚ) / 255 - ((min r b : ℕ) : ℚ) / 255 ≠ 0 := by
    intro hd
    apply hDne
    linarith
  rw [if_pos hdiff]
  rw [if_neg (by
    intro hd
    have : (g : ℚ) = r := by linarith
    linarith)]
  rw [if_pos rfl]
  have harg : ((b : ℚ) / 255 - (r : ℚ) / 255) / ((g : ℚ) / 255 - ((min r b : ℕ) : ℚ) / 255) =
      ((b : ℚ) - r) / ((g : ℚ) - ((min r b : ℕ) : ℚ)) := by
    rw [div_eq_div_iff (by intro hd; exact hdiff (by linarith)) hDne]
    ring
  rw [harg]
  have hu1 : (-1 : ℚ) ≤ ((b : ℚ) - r) / ((g : ℚ) - ((min r b : ℕ) : ℚ)) := by
    rw [le_div_iff hD]
    rcases le_total r b with hord | hord
    · rw [min_eq_left hord]
      have : (r : ℚ) ≤ b := by exact_mod_cast hord
      linarith
    · rw [min_eq_right hord]
      have : (b : ℚ) ≤ r := by exact_mod_cast hord
      linarith
  have hu2 : ((b : ℚ) - r) / ((g : ℚ) - ((min r b : ℕ) : ℚ)) ≤ 1 := by
    rw [div_le_one hD]
    rcases le_total r b with hord | hord
    · rw [min_eq_left hord]
      have : (r : ℚ) ≤ b := by exact_mod_cast hord
      linarith
    · rw [min_eq_right hord]
      have : (b : ℚ) ≤ r := by exact_mod_cast hord
      linarith
  have hne0 : (g : ℚ) / 255 ≠ 0 := by positivity
  rw [if_neg hne0]
  refine Pixel.mk.injEq _ _ _ _ _ _ _ _ ▸ ⟨?_, ?_, ?_, rfl⟩
  · have e1 : 60 * (((b : ℚ) - r) / ((g : ℚ) - ((min r b : ℕ) : ℚ)) + 2) * 255 / 360 =
        85 / 2 * (((b : ℚ) - r) / ((g : ℚ) - ((min r b : ℕ) : ℚ))) + 85 := by ring
    have e2 : (85 / 2 : ℚ) * (((b : ℚ) - r) / ((g : ℚ) - ((min r b : ℕ) : ℚ))) =
        85 * ((b : ℚ) - r) / (2 * ((g : ℚ) - ((min r b : ℕ) : ℚ))) :=
      div_mul_div_comm 85 2 _ _
    rw [e1, e2]
    refine clampStore_eq_toNat _ ?_ ?_
    · rw [← e2]
      nlinarith
    · rw [← e2]
      nlinarith
  · rw [show ((g : ℚ) / 255 - ((min r b : ℕ) : ℚ) / 255) / ((g : ℚ) / 255) * 255 =
      255 * ((g : ℚ) - ((min r b : ℕ) : ℚ)) / g by
        field_simp
        ring]
    refine clampStore_eq_toNat _ (div_nonneg (by linarith) (by linarith)) ?_
    rw [div_le_iff hgpos]
    nlinarith [Nat.cast_nonneg (α := ℚ) (min r b)]
  · rw [show (g : ℚ) / 255 * 255 = ((g : ℕ) : ℚ) by field_simp]
    exact clampStore_natCast g hg

/-- `processImageData` on a pixel whose blue channel is the strict
maximum: hue sector `+4`. -/
theorem encode_bmax (r g b a : ℕ) (hb : b ≤ 255) (hrb : r < b) (hgb : g < b) :
    processPixel ⟨r, g, b, a⟩ =
      ⟨(roundHalfEven (85 * ((r : ℚ) - g) / (2 * ((b : ℚ) - ((min r g : ℕ) : ℚ))) + 170)).toNat,
       (roundHalfEven (255 * ((b : ℚ) - ((min r g : ℕ) : ℚ)) / b)).toNat, b, a⟩ := by
  have hrb' : (r : ℚ) < b := by exact_mod_cast hrb
  have hgb' : (g : ℚ) < b := by exact_mod_cast hgb
  have hb' : (b : ℚ) ≤ 255 := by exact_mod_cast hb
  have hmr : ((min r g : ℕ) : ℚ) ≤ r := by exact_mod_cast min_le_left r g
  have hmg : ((min r g : ℕ) : ℚ) ≤ g := by exact_mod_cast min_le_right r g
  have hD : (0 : ℚ) < (b : ℚ) - ((min r g : ℕ) : ℚ) := by linarith
  have hDne : (b : ℚ) - ((min r g : ℕ) : ℚ) ≠ 0 := ne_of_gt hD
  have hbpos : (0 : ℚ) < b := by linarith [Nat.cast_nonneg (α := ℚ) r]
  simp only [processPixel]
  have h255 : (0 : ℚ) < 255 := by norm_num
  have hmax : max ((r : ℚ) / 255) (max ((g : ℚ) / 255) ((b : ℚ) / 255)) = (b : ℚ) / 255 := by
    rw [max_eq_right ((div_le_div_iff_of_pos_right h255).mpr (le_of_lt hgb'))]
    exact max_eq_right ((div_le_div_iff_of_pos_right h255).mpr (le_of_lt hrb'))
  have hmin : min ((r : ℚ) / 255) (min ((g : ℚ) / 255) ((b : ℚ) / 255)) =
      ((min r g : ℕ) : ℚ) / 255 := by
    rw [min_eq_left ((div_le_div_iff_of_pos_right h255).mpr (le_of_lt hgb')), Nat.cast_min]
    exact min_div_div_right (by norm_num : (0 : ℚ) ≤ 255) (r : ℚ) (g : ℚ)
  rw [hmax, hmin]
  have hdiff : (b : ℚ) / 255 - ((min r g : ℕ) : ℚ) / 255 ≠ 0 := by
    intro hd
    apply hDne
    linarith
  rw [if_pos hdiff]
  rw [if_neg (by
    intro hd
    have : (b : ℚ) = r := by linarith
    linarith)]
  rw [if_neg (by
    intro hd
    have : (b : ℚ) = g := by linarith
    linarith)]
  have harg : ((r : ℚ) / 255 - (g : ℚ) / 255) / ((b : ℚ) / 255 - ((min r g : ℕ) : ℚ) / 255) =
      ((r : ℚ) - g) / ((b : ℚ) - ((min r g : ℕ) : ℚ)) := by
    rw [div_eq_div_iff (by intro hd; exact hdiff (by linarith)) hDne]
    ring
  rw [harg]
  have hu1 : (-1 : ℚ) ≤ ((r : ℚ) - g) / ((b : ℚ) - ((min r g : ℕ) : ℚ)) := by
    rw [le_div_iff hD]
    rcases le_total r g with hord | hord
    · rw [min_eq_left hord]
      have : (r : ℚ) ≤ g := by exact_mod_cast hord
      linarith
    · rw [min_eq_right hord]
      have : (g : ℚ) ≤ r := by exact_mod_cast hord
      linarith
  have hu2 : ((r : ℚ) - g) / ((b : ℚ) - ((min r g : ℕ) : ℚ)) ≤ 1 := by
    rw [div_le_one hD]
    rcases le_total r g with hord | hord
    · rw [min_eq_left hord]
      have : (r : ℚ) ≤ g := by exact_mod_cast hord
      linarith
    · rw [min_eq_right hord]
      have : (g : ℚ) ≤ r := by exact_mod_cast hord
      linarith
  have hne0 : (b : ℚ) / 255 ≠ 0 := by positivity
  rw [if_neg hne0]
  refine Pixel.mk.injEq _ _ _ _ _ _ _ _ ▸ ⟨?_, ?_, ?_, rfl⟩
  · have e1 : 60 * (((r : ℚ) - g) / ((b : ℚ) - ((min r g : ℕ) : ℚ)) + 4) * 255 / 360 =
        85 / 2 * (((r : ℚ) - g) / ((b : ℚ) - ((min r g : ℕ) : ℚ))) + 170 := by ring
    have e2 : (85 / 2 : ℚ) * (((r : ℚ) - g) / ((b : ℚ) - ((min r g : ℕ) : ℚ))) =
        85 * ((r : ℚ) - g) / (2 * ((b : ℚ) - ((min r g : ℕ) : ℚ))) :=
      div_mul_div_comm 85 2 _ _
    rw [e1, e2]
    refine clampStore_eq_toNat _ ?_ ?_
    · rw [← e2]
      nlinarith
    · rw [← e2]
      nlinarith
  · rw [show ((b : ℚ) / 255 - ((min r g : ℕ) : ℚ) / 255) / ((b : ℚ) / 255) * 255 =
      255 * ((b : ℚ) - ((min r g : ℕ) : ℚ)) / b by
        field_simp
        ring]
    refine clampStore_eq_toNat _ (div_nonneg (by linarith) (by linarith)) ?_
    rw [div_le_iff hbpos]
    nlinarith [Nat.cast_nonneg (α := ℚ) (min r g)]
  · rw [show (b : ℚ) / 255 * 255 = ((b : ℕ) : ℚ) by field_simp]
    exact clampStore_natCast b hb

/-- `processImageData` on an achromatic pixel (`r = g = b`): hue and
saturation store as zero, value as the common channel. -/
theorem encode_achromatic (r a : ℕ) (hr : r ≤ 255) :
    processPixel ⟨r, r, r, a⟩ = ⟨0, 0, r, a⟩ := by
  simp only [processPixel]
  rw [max_self, max_self, min_self, min_self]
  rw [if_neg (by simp)]
  by_cases hr0 : (r : ℚ) / 255 = 0
  · rw [if_pos hr0]
    refine Pixel.mk.injEq _ _ _ _ _ _ _ _ ▸ ⟨?_, ?_, ?_, rfl⟩
    · norm_num [clampStore]
    · norm_num [clampStore]
    · rw [show (r : ℚ) / 255 * 255 = ((r : ℕ) : ℚ) by field_simp]
      exact clampStore_natCast r hr
  · rw [if_neg hr0]
    refine Pixel.mk.injEq _ _ _ _ _ _ _ _ ▸ ⟨?_, ?_, ?_, rfl⟩
    · norm_num [clampStore]
    · rw [sub_self, zero_div, zero_mul]
      norm_num [clampStore]
    · rw [show (r : ℚ) / 255 * 255 = ((r : ℕ) : ℚ) by field_simp]
      exact clampStore_natCast r hr

end RgbHsvFilter

/-! ### HSV round trip: the quantization error pattern

Every non-exact decoded channel has the shape
`target + (D·β − A·β')` where `D` is the pixel's max−min spread, `A` its
dequantized counterpart (`|D − A| ≤ 1/2`), `β` the exact hue shape
factor and `β'` its value at the quantized hue byte
(`|β − β'| ≤ 1/85`).  The total error stays below `7/2`, and the
extremal case `7/2` is impossible because it forces `D = 255`, which
makes the saturation store exact. -/
theorem pattern_bound (n : ℤ) (D A β β' : ℚ) (hA : 0 ≤ A) (hD0 : 0 ≤ D) (hD : D ≤ 255)
    (hDA : |D - A| ≤ 1/2) (hβ0 : 0 ≤ β') (hβ1 : β' ≤ 1) (hββ : |β - β'| ≤ 1/85)
    (htie : D = 255 → A = 255) :
    |jsRound ((n : ℚ) + (D * β - A * β')) - n| ≤ 3 := by
  have hDA' := abs_le.mp hDA
  have hββ' := abs_le.mp hββ
  have hb1 : (D - A) * β' ≤ 1/2 := by nlinarith
  have hb1' : -(1/2) ≤ (D - A) * β' := by nlinarith
  have hb2 : D * (β - β') ≤ 3 := by nlinarith
  have hb2' : -3 ≤ D * (β - β') := by nlinarith
  have he : D * β - A * β' = (D - A) * β' + D * (β - β') := by ring
  have habs : |(n : ℚ) + (D * β - A * β') - n| ≤ 7/2 := by
    rw [abs_le]
    constructor <;> [skip; skip] <;> rw [he] <;> push_cast <;> linarith
  refine jsRound_close _ _ habs ?_
  intro heq
  have heq' : (D - A) * β' + D * (β - β') = 7/2 := by
    rw [← he]
    push_cast at heq
    linarith
  have hf1 : (D - A) * β' = 1/2 := by linarith
  have hf2 : D * (β - β') = 3 := by linarith
  have hD255 : D = 255 := by nlinarith
  have hA255 : A = 255 := htie hD255
  rw [hD255, hA255] at hf1
  norm_num at hf1

/-- Dequantizing the stored saturation reproduces the max−min spread to
within half a level. -/
theorem satA_close (Mq Dq : ℚ) (hM : 0 < Mq) (hM255 : Mq ≤ 255) (hD0 : 0 ≤ Dq)
    (hDM : Dq ≤ Mq) :
    |Dq - Mq * (((roundHalfEven (255 * Dq / Mq)).toNat : ℕ) : ℚ) / 255| ≤ 1/2 := by
  have hS0 : (0 : ℚ) ≤ 255 * Dq / Mq := div_nonneg (by linarith) (by linarith)
  have hcast : ((((roundHalfEven (255 * Dq / Mq)).toNat : ℕ)) : ℚ) =
      ((roundHalfEven (255 * Dq / Mq) : ℤ) : ℚ) := by
    exact_mod_cast Int.toNat_of_nonneg (roundHalfEven_nonneg _ hS0)
  rw [hcast]
  have habs := abs_le.mp (roundHalfEven_abs_le (255 * Dq / Mq))
  have hid : Dq - Mq * ((roundHalfEven (255 * Dq / Mq) : ℤ) : ℚ) / 255 =
      (Mq / 255) * ((255 * Dq / Mq) - ((roundHalfEven (255 * Dq / Mq) : ℤ) : ℚ)) := by
    field_simp
    ring
  rw [hid, abs_le]
  have h1 : Mq / 255 ≤ 1 := by
    rw [div_le_one (by norm_num : (0:ℚ) < 255)]
    linarith
  have h2 : (0 : ℚ) ≤ Mq / 255 := by positivity
  constructor <;> nlinarith

/-- When the spread fills the whole range, the saturation store is
exact. -/
theorem satA_full (Mq Dq : ℚ) (hDq : Dq = 255) (hMq : Mq = 255) :
    Mq * (((roundHalfEven (255 * Dq / Mq)).toNat : ℕ) : ℚ) / 255 = 255 := by
  subst hDq hMq
  rw [show (255 : ℚ) * 255 / 255 = ((255 : ℤ) : ℚ) by norm_num, roundHalfEven_intCast]
  rw [show ((255 : ℤ)).toNat = (255 : ℕ) from rfl]
  norm_num

namespace RgbHsvFilter

set_option maxHeartbeats 1000000 in
/-- Round-trip error bound when red is the (JS-selected) maximum channel
and `g ≥ b`. -/
theorem roundTrip_rmax_bound (r g b : ℕ) (hr : r ≤ 255) (hgr : g ≤ r) (hbg : b ≤ g)
    (hbr : b < r) :
    |(roundTrip r g b).1 - (r : ℤ)| ≤ 3 ∧
    |(roundTrip r g b).2.1 - (g : ℤ)| ≤ 3 ∧
    |(roundTrip r g b).2.2 - (b : ℤ)| ≤ 3 := by
  have hbr' : (b : ℚ) < r := by exact_mod_cast hbr
  have hbg' : (b : ℚ) ≤ g := by exact_mod_cast hbg
  have hgr' : (g : ℚ) ≤ r := by exact_mod_cast hgr
  have hr' : (r : ℚ) ≤ 255 := by exact_mod_cast hr
  have hb0 : (0 : ℚ) ≤ b := Nat.cast_nonneg b
  have hDpos : (0 : ℚ) < (r : ℚ) - b := by linarith
  have hrpos : (0 : ℚ) < r := by linarith
  set Hq : ℚ := 85 * ((g : ℚ) - b) / (2 * ((r : ℚ) - b)) with hHq
  set Sq : ℚ := 255 * ((r : ℚ) - b) / r with hSq
  have ht0 : (0 : ℚ) ≤ Hq := by
    rw [hHq]
    exact div_nonneg (by linarith) (by linarith)
  have ht425 : Hq ≤ 85 / 2 := by
    rw [hHq, div_le_iff (by linarith)]
    nlinarith
  have hS0 : (0 : ℚ) ≤ Sq := by
    rw [hSq]
    exact div_nonneg (by linarith) (by linarith)
  have hS255 : Sq ≤ 255 := by
    rw [hSq, div_le_iff hrpos]
    nlinarith
  set h8 : ℕ := (roundHalfEven Hq).toNat with hh8def
  set s8 : ℕ := (roundHalfEven Sq).toNat with hs8def
  have hh8 : (h8 : ℤ) = roundHalfEven Hq := by
    rw [hh8def]
    exact Int.toNat_of_nonneg (roundHalfEven_nonneg _ ht0)
  have hs8 : (s8 : ℤ) = roundHalfEven Sq := by
    rw [hs8def]
    exact Int.toNat_of_nonneg (roundHalfEven_nonneg _ hS0)
  have hh8q : |(h8 : ℚ) - Hq| ≤ 1/2 := by
    have hcast : ((h8 : ℕ) : ℚ) = ((roundHalfEven Hq : ℤ) : ℚ) := by exact_mod_cast hh8
    rw [hcast]
    exact roundHalfEven_abs_le Hq
  have hs8q : |(s8 : ℚ) - Sq| ≤ 1/2 := by
    have hcast : ((s8 : ℕ) : ℚ) = ((roundHalfEven Sq : ℤ) : ℚ) := by exact_mod_cast hs8
    rw [hcast]
    exact roundHalfEven_abs_le Sq
  have hsec : 2 * h8 < 85 := by
    have h42 : roundHalfEven Hq ≤ 42 :=
      roundHalfEven_le_of_le_half Hq 42 (by norm_num) (by push_cast; linarith)
    have : (h8 : ℤ) ≤ 42 := hh8 ▸ h42
    omega
  have hrt : roundTrip r g b = hsvToRgb h8 s8 r := by
    unfold roundTrip
    rw [encode_rmax r g b 255 hr hgr hbg hbr]
  rw [hrt, decode_s0 h8 s8 r hsec]
  set A : ℚ := (r : ℚ) * (s8 : ℚ) / 255 with hA
  have hDA : |((r : ℚ) - b) - A| ≤ 1/2 := by
    have hid : ((r : ℚ) - b) - A = (r : ℚ) / 255 * (Sq - s8) := by
      rw [hA, hSq]
      field_simp
      ring
    have hs := abs_le.mp hs8q
    have hr255 : (r : ℚ) / 255 ≤ 1 := by
      rw [div_le_one (by norm_num : (0:ℚ) < 255)]
      linarith
    have hr0 : (0 : ℚ) ≤ (r : ℚ) / 255 := by positivity
    rw [hid, abs_le]
    constructor <;> nlinarith
  refine ⟨by simp, ?_, ?_⟩
  · -- middle channel: the 7/2 pattern
    have hDt : ((r : ℚ) - b) * (1 - ((g : ℚ) - b) / ((r : ℚ) - b)) = (r : ℚ) - g := by
      field_simp
    have ht_eq : ((g : ℚ) - b) / ((r : ℚ) - b) = 2 * Hq / 85 := by
      rw [hHq]
      field_simp
      ring
    have key : (r : ℚ) - (r : ℚ) * (s8 : ℚ) / 255 * (1 - 2 * (h8 : ℚ) / 85) =
        ((((g : ℕ) : ℤ)) : ℚ) +
          (((r : ℚ) - b) * (1 - ((g : ℚ) - b) / ((r : ℚ) - b)) -
            A * (1 - 2 * (h8 : ℚ) / 85)) := by
      rw [hDt, hA]
      push_cast
      ring
    rw [key]
    refine pattern_bound ((g : ℕ) : ℤ) ((r : ℚ) - b) A
      (1 - ((g : ℚ) - b) / ((r : ℚ) - b)) (1 - 2 * (h8 : ℚ) / 85)
      (by positivity) (by linarith) (by linarith) hDA ?_ ?_ ?_ ?_
    · have hn : h8 ≤ 42 := by omega
      have : (h8 : ℚ) ≤ 42 := by exact_mod_cast hn
      linarith
    · have : (0 : ℚ) ≤ (h8 : ℚ) := Nat.cast_nonneg h8
      linarith
    · rw [ht_eq]
      have hs := abs_le.mp hh8q
      rw [abs_le]
      constructor <;> [skip; skip] <;> push_cast <;> linarith
    · intro hd
      have hbz : (b : ℚ) = 0 := by linarith
      have hrz : (r : ℚ) = 255 := by linarith
      have hSq255 : Sq = 255 := by
        rw [hSq, hbz, hrz]
        norm_num
      have hs8v : (s8 : ℤ) = 255 := by
        rw [hs8, hSq255, show (255 : ℚ) = ((255 : ℤ) : ℚ) by norm_num,
          roundHalfEven_intCast]
      have : (s8 : ℚ) = 255 := by exact_mod_cast hs8v
      rw [hA, hrz, this]
      norm_num
  · -- blue channel: within one of the min
    show |jsRound ((r : ℚ) - (r : ℚ) * (s8 : ℚ) / 255) - ((b : ℕ) : ℤ)| ≤ 3
    have h1 : |(r : ℚ) - (r : ℚ) * (s8 : ℚ) / 255 - (((b : ℕ) : ℤ) : ℚ)| ≤ 1/2 := by
      rw [show (r : ℚ) - (r : ℚ) * (s8 : ℚ) / 255 - (((b : ℕ) : ℤ) : ℚ) =
        ((r : ℚ) - b) - A by rw [hA]; push_cast; ring]
      exact hDA
    have := jsRound_close_one _ ((b : ℕ) : ℤ) h1
    omega

set_option maxHeartbeats 1600000 in
/-- Round-trip error bound when green is the strict maximum channel. -/
theorem roundTrip_gmax_bound (r g b : ℕ) (hg : g ≤ 255) (hrg : r < g) (hbg : b ≤ g) :
    |(roundTrip r g b).1 - (r : ℤ)| ≤ 3 ∧
    |(roundTrip r g b).2.1 - (g : ℤ)| ≤ 3 ∧
    |(roundTrip r g b).2.2 - (b : ℤ)| ≤ 3 := by
  have hrg' : (r : ℚ) < g := by exact_mod_cast hrg
  have hbg' : (b : ℚ) ≤ g := by exact_mod_cast hbg
  have hg' : (g : ℚ) ≤ 255 := by exact_mod_cast hg
  have hb0 : (0 : ℚ) ≤ b := Nat.cast_nonneg b
  have hr0 : (0 : ℚ) ≤ r := Nat.cast_nonneg r
  set m : ℕ := min r b with hmdef
  have hmr : ((m : ℕ) : ℚ) ≤ r := by rw [hmdef]; exact_mod_cast min_le_left r b
  have hmb : ((m : ℕ) : ℚ) ≤ b := by rw [hmdef]; exact_mod_cast min_le_right r b
  have hm0 : (0 : ℚ) ≤ ((m : ℕ) : ℚ) := Nat.cast_nonneg m
  have hD : (0 : ℚ) < (g : ℚ) - (m : ℚ) := by linarith
  have hDne : (g : ℚ) - (m : ℚ) ≠ 0 := ne_of_gt hD
  have hgpos : (0 : ℚ) < (g : ℚ) := by linarith
  have hgne : (g : ℚ) ≠ 0 := ne_of_gt hgpos
  set Hq : ℚ := 85 * ((b : ℚ) - r) / (2 * ((g : ℚ) - (m : ℚ))) + 85 with hHq
  set Sq : ℚ := 255 * ((g : ℚ) - (m : ℚ)) / g with hSq
  have h2D : (0 : ℚ) < 2 * ((g : ℚ) - (m : ℚ)) := by linarith
  have hfr_le : 85 * ((b : ℚ) - r) / (2 * ((g : ℚ) - (m : ℚ))) ≤ 85 / 2 := by
    rw [div_le_iff h2D]
    linarith
  have hfr_gt : -(85 / 2 : ℚ) < 85 * ((b : ℚ) - r) / (2 * ((g : ℚ) - (m : ℚ))) := by
    rw [lt_div_iff h2D]
    linarith
  have hH0 : (0 : ℚ) ≤ Hq := by rw [hHq]; linarith
  have hHgt : 85 / 2 < Hq := by rw [hHq]; linarith
  have hHle : Hq ≤ 255 / 2 := by rw [hHq]; linarith
  have hS0 : (0 : ℚ) ≤ Sq := by
    rw [hSq]
    exact div_nonneg (by linarith) (by linarith)
  have hS255 : Sq ≤ 255 := by
    rw [hSq, div_le_iff hgpos]
    linarith
  set h8 : ℕ := (roundHalfEven Hq).toNat with hh8def
  set s8 : ℕ := (roundHalfEven Sq).toNat with hs8def
  have hh8 : (h8 : ℤ) = roundHalfEven Hq := by
    rw [hh8def]
    exact Int.toNat_of_nonneg (roundHalfEven_nonneg _ hH0)
  have hs8 : (s8 : ℤ) = roundHalfEven Sq := by
    rw [hs8def]
    exact Int.toNat_of_nonneg (roundHalfEven_nonneg _ hS0)
  have hh8q : |(h8 : ℚ) - Hq| ≤ 1/2 := by
    have hcast : ((h8 : ℕ) : ℚ) = ((roundHalfEven Hq : ℤ) : ℚ) := by exact_mod_cast hh8
    rw [hcast]
    exact roundHalfEven_abs_le Hq
  have hs8q : |(s8 : ℚ) - Sq| ≤ 1/2 := by
    have hcast : ((s8 : ℕ) : ℚ) = ((roundHalfEven Sq : ℤ) : ℚ) := by exact_mod_cast hs8
    rw [hcast]
    exact roundHalfEven_abs_le Sq
  have hh8lo : 43 ≤ h8 := by
    have h43 := roundHalfEven_ge_of_half_lt Hq 42 (by push_cast; linarith)
    have h43' : (43 : ℤ) ≤ (h8 : ℤ) := by rw [hh8]; linarith [h43]
    exact_mod_cast h43'
  have hh8hi : h8 ≤ 128 := by
    have h128 := roundHalfEven_le_of_le_half Hq 128 (by norm_num) (by push_cast; linarith)
    have h128' : (h8 : ℤ) ≤ 128 := by rw [hh8]; exact h128
    exact_mod_cast h128'
  set A : ℚ := (g : ℚ) * (s8 : ℚ) / 255 with hA
  have hDA : |((g : ℚ) - (m : ℚ)) - A| ≤ 1/2 := by
    have hid : ((g : ℚ) - (m : ℚ)) - A = (g : ℚ) / 255 * (Sq - s8) := by
      rw [hA, hSq]
      field_simp
      ring
    have hs := abs_le.mp hs8q
    have hg255 : (g : ℚ) / 255 ≤ 1 := by
      rw [div_le_one (by norm_num : (0:ℚ) < 255)]
      linarith
    have hg0 : (0 : ℚ) ≤ (g : ℚ) / 255 := by positivity
    rw [hid, abs_le]
    constructor <;> nlinarith
  have htieA : (g : ℚ) - (m : ℚ) = 255 → A = 255 := by
    intro hd
    have hgz : (g : ℚ) = 255 := by linarith
    have hmz : ((m : ℕ) : ℚ) = 0 := by linarith
    have hSq255 : Sq = 255 := by
      rw [hSq, hgz, hmz]
      norm_num
    have hs8v : (s8 : ℤ) = 255 := by
      rw [hs8, hSq255, show (255 : ℚ) = ((255 : ℤ) : ℚ) by norm_num, roundHalfEven_intCast]
    have hs8q255 : (s8 : ℚ) = 255 := by exact_mod_cast hs8v
    rw [hA, hgz, hs8q255]
    norm_num
  have hrt : roundTrip r g b = hsvToRgb h8 s8 g := by
    unfold roundTrip
    rw [encode_gmax r g b 255 hg hrg hbg]
  rcases lt_or_le (2 * h8) 170 with hs1 | hs1
  · -- hue byte lands in the second decode sector: red must be above blue
    rw [hrt, decode_s1 h8 s8 g (by omega) hs1]
    have hbr : b < r := by
      by_contra hge
      push_neg at hge
      have hge' : (r : ℚ) ≤ (b : ℚ) := by exact_mod_cast hge
      have hfr : (0 : ℚ) ≤ 85 * ((b : ℚ) - r) / (2 * ((g : ℚ) - (m : ℚ))) :=
        div_nonneg (by linarith) (by linarith)
      have hHge85 : (85 : ℚ) ≤ Hq := by rw [hHq]; linarith
      have habs := abs_le.mp hh8q
      have h84 : (84 : ℚ) < (h8 : ℚ) := by linarith
      have h84n : 84 < h8 := by exact_mod_cast h84
      omega
    have hmbq : ((m : ℕ) : ℚ) = (b : ℚ) := by
      have he : m = b := by rw [hmdef]; exact min_eq_right (Nat.le_of_lt hbr)
      exact_mod_cast he
    refine ⟨?_, ?_, ?_⟩
    · show |jsRound ((g : ℚ) - (g : ℚ) * (s8 : ℚ) / 255 * (2 * (h8 : ℚ) / 85 - 1)) -
        ((r : ℕ) : ℤ)| ≤ 3
      have hDβ : ((g : ℚ) - (m : ℚ)) * (2 * Hq / 85 - 1) =
          ((b : ℚ) - (r : ℚ)) + ((g : ℚ) - (m : ℚ)) := by
        rw [hHq]
        field_simp
        ring
      have key : (g : ℚ) - (g : ℚ) * (s8 : ℚ) / 255 * (2 * (h8 : ℚ) / 85 - 1) =
          (((r : ℕ) : ℤ) : ℚ) + (((g : ℚ) - (m : ℚ)) * (2 * Hq / 85 - 1) -
            A * (2 * (h8 : ℚ) / 85 - 1)) := by
        rw [hDβ, hA, hmbq]
        push_cast
        ring
      rw [key]
      refine pattern_bound ((r : ℕ) : ℤ) ((g : ℚ) - (m : ℚ)) A (2 * Hq / 85 - 1)
        (2 * (h8 : ℚ) / 85 - 1) (by positivity) (by linarith) (by linarith) hDA ?_ ?_ ?_ htieA
      · have h43 : (43 : ℚ) ≤ (h8 : ℚ) := by exact_mod_cast hh8lo
        linarith
      · have h170 : 2 * (h8 : ℚ) < 170 := by exact_mod_cast hs1
        linarith
      · have habs := abs_le.mp hh8q
        rw [abs_le]
        constructor <;> linarith
    · simp
    · show |jsRound ((g : ℚ) - (g : ℚ) * (s8 : ℚ) / 255) - ((b : ℕ) : ℤ)| ≤ 3
      have h1 : |(g : ℚ) - (g : ℚ) * (s8 : ℚ) / 255 - (((b : ℕ) : ℤ) : ℚ)| ≤ 1/2 := by
        rw [show (g : ℚ) - (g : ℚ) * (s8 : ℚ) / 255 - (((b : ℕ) : ℤ) : ℚ) =
          ((g : ℚ) - (m : ℚ)) - A by rw [hA, hmbq]; push_cast; ring]
        exact hDA
      have := jsRound_close_one _ ((b : ℕ) : ℤ) h1
      omega
  rcases lt_or_le (2 * h8) 255 with hs2 | hs2
  · -- hue byte lands in the third decode sector
    rw [hrt, decode_s2 h8 s8 g hs1 hs2]
    have h85n : 85 ≤ h8 := by omega
    have h85q : (85 : ℚ) ≤ (h8 : ℚ) := by exact_mod_cast h85n
    have habs := abs_le.mp hh8q
    have hHge : (169 : ℚ) / 2 ≤ Hq := by linarith
    have hb485 : -((g : ℚ) - (m : ℚ)) ≤ 85 * ((b : ℚ) - (r : ℚ)) := by
      have hx : -(1 : ℚ) / 2 ≤ 85 * ((b : ℚ) - r) / (2 * ((g : ℚ) - (m : ℚ))) := by
        rw [hHq] at hHge
        linarith
      rw [le_div_iff h2D] at hx
      linarith
    refine ⟨?_, ?_, ?_⟩
    · show |jsRound ((g : ℚ) - (g : ℚ) * (s8 : ℚ) / 255) - ((r : ℕ) : ℤ)| ≤ 3
      have hDβ : ((g : ℚ) - (m : ℚ)) * (((g : ℚ) - (r : ℚ)) / ((g : ℚ) - (m : ℚ))) =
          (g : ℚ) - (r : ℚ) := by
        field_simp
      have key : (g : ℚ) - (g : ℚ) * (s8 : ℚ) / 255 =
          (((r : ℕ) : ℤ) : ℚ) + (((g : ℚ) - (m : ℚ)) *
            (((g : ℚ) - (r : ℚ)) / ((g : ℚ) - (m : ℚ))) - A * 1) := by
        rw [hDβ, hA]
        push_cast
        ring
      rw [key]
      refine pattern_bound ((r : ℕ) : ℤ) ((g : ℚ) - (m : ℚ)) A
        (((g : ℚ) - (r : ℚ)) / ((g : ℚ) - (m : ℚ))) 1
        (by positivity) (by linarith) (by linarith) hDA (by norm_num) (by norm_num) ?_ htieA
      have he : ((g : ℚ) - (r : ℚ)) / ((g : ℚ) - (m : ℚ)) - 1 =
          ((m : ℚ) - (r : ℚ)) / ((g : ℚ) - (m : ℚ)) := by
        field_simp
      rw [show ((g : ℚ) - (r : ℚ)) / ((g : ℚ) - (m : ℚ)) - 1 =
          ((g : ℚ) - (r : ℚ)) / ((g : ℚ) - (m : ℚ)) - 1 from rfl, he, abs_le]
      constructor
      · rw [le_div_iff hD]
        rcases le_total r b with hord | hord
        · have hmq : ((m : ℕ) : ℚ) = (r : ℚ) := by
            have he2 : m = r := by rw [hmdef]; exact min_eq_left hord
            exact_mod_cast he2
          rw [hmq]
          linarith
        · have hmq : ((m : ℕ) : ℚ) = (b : ℚ) := by
            have he2 : m = b := by rw [hmdef]; exact min_eq_right hord
            exact_mod_cast he2
          rw [hmq] at hb485 ⊢
          linarith
      · rw [div_le_iff hD]
        linarith
    · simp
    · show |jsRound ((g : ℚ) - (g : ℚ) * (s8 : ℚ) / 255 * (3 - 2 * (h8 : ℚ) / 85)) -
        ((b : ℕ) : ℤ)| ≤ 3
      rcases le_total b r with hord | hord
      · -- blue at most red: the hue byte is forced to 85, the factor to 1
        have hmbq : ((m : ℕ) : ℚ) = (b : ℚ) := by
          have he : m = b := by rw [hmdef]; exact min_eq_right hord
          exact_mod_cast he
        have hnum : 85 * ((b : ℚ) - (r : ℚ)) ≤ 0 := by
          have hc : (b : ℚ) ≤ (r : ℚ) := by exact_mod_cast hord
          linarith
        have hfr : 85 * ((b : ℚ) - r) / (2 * ((g : ℚ) - (m : ℚ))) ≤ 0 := by
          rw [div_le_iff h2D]
          linarith
        have hHle85 : Hq ≤ 85 := by rw [hHq]; linarith
        have hup := roundHalfEven_le Hq
        have hc : ((h8 : ℕ) : ℚ) = ((roundHalfEven Hq : ℤ) : ℚ) := by exact_mod_cast hh8
        have h86 : (h8 : ℚ) < 86 := by rw [hc]; linarith
        have h86n : h8 < 86 := by exact_mod_cast h86
        have hh85 : h8 = 85 := by omega
        have h85' : (h8 : ℚ) = 85 := by exact_mod_cast hh85
        rw [h85']
        have h1 : |(g : ℚ) - (g : ℚ) * (s8 : ℚ) / 255 * (3 - 2 * (85 : ℚ) / 85) -
            (((b : ℕ) : ℤ) : ℚ)| ≤ 1/2 := by
          rw [show (g : ℚ) - (g : ℚ) * (s8 : ℚ) / 255 * (3 - 2 * (85 : ℚ) / 85) -
              (((b : ℕ) : ℤ) : ℚ) = ((g : ℚ) - (m : ℚ)) - A by rw [hA, hmbq]; push_cast; ring]
          exact hDA
        have := jsRound_close_one _ ((b : ℕ) : ℤ) h1
        omega
      · -- red at most blue: the error pattern with the exact shape factor
        have hmrq : ((m : ℕ) : ℚ) = (r : ℚ) := by
          have he : m = r := by rw [hmdef]; exact min_eq_left hord
          exact_mod_cast he
        have hgrne : (g : ℚ) - (r : ℚ) ≠ 0 := sub_ne_zero_of_ne (ne_of_gt hrg')
        have hDβ : ((g : ℚ) - (m : ℚ)) * (((g : ℚ) - (b : ℚ)) / ((g : ℚ) - (m : ℚ))) =
            (g : ℚ) - (b : ℚ) := by
          field_simp
        have key : (g : ℚ) - (g : ℚ) * (s8 : ℚ) / 255 * (3 - 2 * (h8 : ℚ) / 85) =
            (((b : ℕ) : ℤ) : ℚ) + (((g : ℚ) - (m : ℚ)) *
              (((g : ℚ) - (b : ℚ)) / ((g : ℚ) - (m : ℚ))) - A * (3 - 2 * (h8 : ℚ) / 85)) := by
          rw [hDβ, hA]
          push_cast
          ring
        rw [key]
        refine pattern_bound ((b : ℕ) : ℤ) ((g : ℚ) - (m : ℚ)) A
          (((g : ℚ) - (b : ℚ)) / ((g : ℚ) - (m : ℚ))) (3 - 2 * (h8 : ℚ) / 85)
          (by positivity) (by linarith) (by linarith) hDA ?_ ?_ ?_ htieA
        · have h255 : 2 * (h8 : ℚ) < 255 := by exact_mod_cast hs2
          linarith
        · have h170 : (170 : ℚ) ≤ 2 * (h8 : ℚ) := by exact_mod_cast hs1
          linarith
        · have hβeq : ((g : ℚ) - (b : ℚ)) / ((g : ℚ) - (m : ℚ)) = 3 - 2 * Hq / 85 := by
            rw [hHq, hmrq]
            field_simp
            ring
          rw [hβeq, abs_le]
          constructor <;> linarith
  · -- hue byte is 128: the spread hits the sector boundary exactly
    have hh128 : h8 = 128 := by omega
    rw [hrt, decode_s3 h8 s8 g (by omega) (by omega)]
    have h128q : (h8 : ℚ) = 128 := by exact_mod_cast hh128
    have habs := abs_le.mp hh8q
    have hHeq : Hq = 255 / 2 := by
      rw [h128q] at habs
      refine le_antisymm hHle ?_
      linarith [habs.2]
    have hueq : (b : ℚ) - (r : ℚ) = (g : ℚ) - (m : ℚ) := by
      have hx : 85 * ((b : ℚ) - r) / (2 * ((g : ℚ) - (m : ℚ))) = 85 / 2 := by
        rw [hHq] at hHeq
        linarith
      rw [div_eq_iff (ne_of_gt h2D)] at hx
      linarith
    have hbgq : (b : ℚ) = (g : ℚ) := by linarith
    have hrmq : (r : ℚ) = ((m : ℕ) : ℚ) := by linarith
    refine ⟨?_, ?_, ?_⟩
    · show |jsRound ((g : ℚ) - (g : ℚ) * (s8 : ℚ) / 255) - ((r : ℕ) : ℤ)| ≤ 3
      have h1 : |(g : ℚ) - (g : ℚ) * (s8 : ℚ) / 255 - (((r : ℕ) : ℤ) : ℚ)| ≤ 1/2 := by
        rw [show (g : ℚ) - (g : ℚ) * (s8 : ℚ) / 255 - (((r : ℕ) : ℤ) : ℚ) =
            ((g : ℚ) - (r : ℚ)) - A by rw [hA]; push_cast; ring]
        rw [hrmq]
        exact hDA
      have := jsRound_close_one _ ((r : ℕ) : ℤ) h1
      omega
    · show |jsRound ((g : ℚ) - (g : ℚ) * (s8 : ℚ) / 255 * (2 * (h8 : ℚ) / 85 - 3)) -
        ((g : ℕ) : ℤ)| ≤ 3
      have hup := roundHalfEven_le Sq
      have hc : ((s8 : ℕ) : ℚ) = ((roundHalfEven Sq : ℤ) : ℚ) := by exact_mod_cast hs8
      have h256 : (s8 : ℚ) < 256 := by rw [hc]; linarith
      have h256n : s8 < 256 := by exact_mod_cast h256
      have hs8le : (s8 : ℚ) ≤ 255 := by
        have hn : s8 ≤ 255 := by omega
        exact_mod_cast hn
      have hs80 : (0 : ℚ) ≤ (s8 : ℚ) := Nat.cast_nonneg s8
      have hAle : A ≤ 255 := by
        rw [hA, div_le_iff (by norm_num : (0 : ℚ) < 255)]
        nlinarith
      have hA0 : (0 : ℚ) ≤ A := by rw [hA]; positivity
      refine jsRound_close _ _ ?_ ?_
      · rw [show (g : ℚ) - (g : ℚ) * (s8 : ℚ) / 255 * (2 * (h8 : ℚ) / 85 - 3) -
            (((g : ℕ) : ℤ) : ℚ) = -(A / 85) by rw [hA, h128q]; push_cast; ring]
        rw [abs_le]
        constructor <;> linarith
      · rw [show (g : ℚ) - (g : ℚ) * (s8 : ℚ) / 255 * (2 * (h8 : ℚ) / 85 - 3) -
            (((g : ℕ) : ℤ) : ℚ) = -(A / 85) by rw [hA, h128q]; push_cast; ring]
        intro hx
        linarith
    · show |((g : ℕ) : ℤ) - ((b : ℕ) : ℤ)| ≤ 3
      have he : b = g := by exact_mod_cast hbgq
      rw [he]
      simp

set_option maxHeartbeats 1600000 in
/-- Round-trip error bound when blue is the strict maximum channel. -/
theorem roundTrip_bmax_bound (r g b : ℕ) (hb : b ≤ 255) (hrb : r < b) (hgb : g < b) :
    |(roundTrip r g b).1 - (r : ℤ)| ≤ 3 ∧
    |(roundTrip r g b).2.1 - (g : ℤ)| ≤ 3 ∧
    |(roundTrip r g b).2.2 - (b : ℤ)| ≤ 3 := by
  have hrb' : (r : ℚ) < b := by exact_mod_cast hrb
  have hgb' : (g : ℚ) < b := by exact_mod_cast hgb
  have hb' : (b : ℚ) ≤ 255 := by exact_mod_cast hb
  have hg0 : (0 : ℚ) ≤ g := Nat.cast_nonneg g
  have hr0 : (0 : ℚ) ≤ r := Nat.cast_nonneg r
  set m : ℕ := min r g with hmdef
  have hmr : ((m : ℕ) : ℚ) ≤ r := by rw [hmdef]; exact_mod_cast min_le_left r g
  have hmg : ((m : ℕ) : ℚ) ≤ g := by rw [hmdef]; exact_mod_cast min_le_right r g
  have hm0 : (0 : ℚ) ≤ ((m : ℕ) : ℚ) := Nat.cast_nonneg m
  have hD : (0 : ℚ) < (b : ℚ) - (m : ℚ) := by linarith
  have hDne : (b : ℚ) - (m : ℚ) ≠ 0 := ne_of_gt hD
  have hbpos : (0 : ℚ) < (b : ℚ) := by linarith
  have hbne : (b : ℚ) ≠ 0 := ne_of_gt hbpos
  set Hq : ℚ := 85 * ((r : ℚ) - g) / (2 * ((b : ℚ) - (m : ℚ))) + 170 with hHq
  set Sq : ℚ := 255 * ((b : ℚ) - (m : ℚ)) / b with hSq
  have h2D : (0 : ℚ) < 2 * ((b : ℚ) - (m : ℚ)) := by linarith
  have hfr_le : 85 * ((r : ℚ) - g) / (2 * ((b : ℚ) - (m : ℚ))) ≤ 85 / 2 := by
    rw [div_le_iff h2D]
    linarith
  have hfr_gt : -(85 / 2 : ℚ) < 85 * ((r : ℚ) - g) / (2 * ((b : ℚ) - (m : ℚ))) := by
    rw [lt_div_iff h2D]
    linarith
  have hH0 : (0 : ℚ) ≤ Hq := by rw [hHq]; linarith
  have hHgt : 255 / 2 < Hq := by rw [hHq]; linarith
  have hHle : Hq ≤ 425 / 2 := by rw [hHq]; linarith
  have hS0 : (0 : ℚ) ≤ Sq := by
    rw [hSq]
    exact div_nonneg (by linarith) (by linarith)
  have hS255 : Sq ≤ 255 := by
    rw [hSq, div_le_iff hbpos]
    linarith
  set h8 : ℕ := (roundHalfEven Hq).toNat with hh8def
  set s8 : ℕ := (roundHalfEven Sq).toNat with hs8def
  have hh8 : (h8 : ℤ) = roundHalfEven Hq := by
    rw [hh8def]
    exact Int.toNat_of_nonneg (roundHalfEven_nonneg _ hH0)
  have hs8 : (s8 : ℤ) = roundHalfEven Sq := by
    rw [hs8def]
    exact Int.toNat_of_nonneg (roundHalfEven_nonneg _ hS0)
  have hh8q : |(h8 : ℚ) - Hq| ≤ 1/2 := by
    have hcast : ((h8 : ℕ) : ℚ) = ((roundHalfEven Hq : ℤ) : ℚ) := by exact_mod_cast hh8
    rw [hcast]
    exact roundHalfEven_abs_le Hq
  have hs8q : |(s8 : ℚ) - Sq| ≤ 1/2 := by
    have hcast : ((s8 : ℕ) : ℚ) = ((roundHalfEven Sq : ℤ) : ℚ) := by exact_mod_cast hs8
    rw [hcast]
    exact roundHalfEven_abs_le Sq
  have hh8lo : 128 ≤ h8 := by
    have h127 := roundHalfEven_ge_of_half_lt Hq 127 (by push_cast; linarith)
    have h128' : (128 : ℤ) ≤ (h8 : ℤ) := by rw [hh8]; linarith [h127]
    exact_mod_cast h128'
  have hh8hi : h8 ≤ 212 := by
    have h212 := roundHalfEven_le_of_le_half Hq 212 (by norm_num) (by push_cast; linarith)
    have h212' : (h8 : ℤ) ≤ 212 := by rw [hh8]; exact h212
    exact_mod_cast h212'
  set A : ℚ := (b : ℚ) * (s8 : ℚ) / 255 with hA
  have hDA : |((b : ℚ) - (m : ℚ)) - A| ≤ 1/2 := by
    have hid : ((b : ℚ) - (m : ℚ)) - A = (b : ℚ) / 255 * (Sq - s8) := by
      rw [hA, hSq]
      field_simp
      ring
    have hs := abs_le.mp hs8q
    have hb255 : (b : ℚ) / 255 ≤ 1 := by
      rw [div_le_one (by norm_num : (0:ℚ) < 255)]
      linarith
    have hb0' : (0 : ℚ) ≤ (b : ℚ) / 255 := by positivity
    rw [hid, abs_le]
    constructor <;> nlinarith
  have htieA : (b : ℚ) - (m : ℚ) = 255 → A = 255 := by
    intro hd
    have hbz : (b : ℚ) = 255 := by linarith
    have hmz : ((m : ℕ) : ℚ) = 0 := by linarith
    have hSq255 : Sq = 255 := by
      rw [hSq, hbz, hmz]
      norm_num
    have hs8v : (s8 : ℤ) = 255 := by
      rw [hs8, hSq255, show (255 : ℚ) = ((255 : ℤ) : ℚ) by norm_num, roundHalfEven_intCast]
    have hs8q255 : (s8 : ℚ) = 255 := by exact_mod_cast hs8v
    rw [hA, hbz, hs8q255]
    norm_num
  have hrt : roundTrip r g b = hsvToRgb h8 s8 b := by
    unfold roundTrip
    rw [encode_bmax r g b 255 hb hrb hgb]
  rcases lt_or_le (2 * h8) 340 with hs1 | hs1
  · -- hue byte lands in the fourth decode sector: green must be above red
    rw [hrt, decode_s3 h8 s8 b (by omega) hs1]
    have hrg : r < g := by
      by_contra hge
      push_neg at hge
      have hge' : (g : ℚ) ≤ (r : ℚ) := by exact_mod_cast hge
      have hfr : (0 : ℚ) ≤ 85 * ((r : ℚ) - g) / (2 * ((b : ℚ) - (m : ℚ))) :=
        div_nonneg (by linarith) (by linarith)
      have hHge170 : (170 : ℚ) ≤ Hq := by rw [hHq]; linarith
      have habs := abs_le.mp hh8q
      have h169 : (169 : ℚ) < (h8 : ℚ) := by linarith
      have h169n : 169 < h8 := by exact_mod_cast h169
      omega
    have hmrq : ((m : ℕ) : ℚ) = (r : ℚ) := by
      have he : m = r := by rw [hmdef]; exact min_eq_left (Nat.le_of_lt hrg)
      exact_mod_cast he
    refine ⟨?_, ?_, ?_⟩
    · show |jsRound ((b : ℚ) - (b : ℚ) * (s8 : ℚ) / 255) - ((r : ℕ) : ℤ)| ≤ 3
      have h1 : |(b : ℚ) - (b : ℚ) * (s8 : ℚ) / 255 - (((r : ℕ) : ℤ) : ℚ)| ≤ 1/2 := by
        rw [show (b : ℚ) - (b : ℚ) * (s8 : ℚ) / 255 - (((r : ℕ) : ℤ) : ℚ) =
          ((b : ℚ) - (m : ℚ)) - A by rw [hA, hmrq]; push_cast; ring]
        exact hDA
      have := jsRound_close_one _ ((r : ℕ) : ℤ) h1
      omega
    · show |jsRound ((b : ℚ) - (b : ℚ) * (s8 : ℚ) / 255 * (2 * (h8 : ℚ) / 85 - 3)) -
        ((g : ℕ) : ℤ)| ≤ 3
      have hDβ : ((b : ℚ) - (m : ℚ)) * (2 * Hq / 85 - 3) =
          ((r : ℚ) - (g : ℚ)) + ((b : ℚ) - (m : ℚ)) := by
        rw [hHq]
        field_simp
        ring
      have key : (b : ℚ) - (b : ℚ) * (s8 : ℚ) / 255 * (2 * (h8 : ℚ) / 85 - 3) =
          (((g : ℕ) : ℤ) : ℚ) + (((b : ℚ) - (m : ℚ)) * (2 * Hq / 85 - 3) -
            A * (2 * (h8 : ℚ) / 85 - 3)) := by
        rw [hDβ, hA, hmrq]
        push_cast
        ring
      rw [key]
      refine pattern_bound ((g : ℕ) : ℤ) ((b : ℚ) - (m : ℚ)) A (2 * Hq / 85 - 3)
        (2 * (h8 : ℚ) / 85 - 3) (by positivity) (by linarith) (by linarith) hDA ?_ ?_ ?_ htieA
      · have h128 : (128 : ℚ) ≤ (h8 : ℚ) := by exact_mod_cast hh8lo
        linarith
      · have h340 : 2 * (h8 : ℚ) < 340 := by exact_mod_cast hs1
        linarith
      · have habs := abs_le.mp hh8q
        rw [abs_le]
        constructor <;> linarith
    · show |((b : ℕ) : ℤ) - ((b : ℕ) : ℤ)| ≤ 3
      simp
  · -- hue byte lands in the fifth decode sector
    rw [hrt, decode_s4 h8 s8 b hs1 (by omega)]
    have h170n : 170 ≤ h8 := by omega
    have h170q : (170 : ℚ) ≤ (h8 : ℚ) := by exact_mod_cast h170n
    have habs := abs_le.mp hh8q
    have hHge : (339 : ℚ) / 2 ≤ Hq := by linarith
    have hb485 : -((b : ℚ) - (m : ℚ)) ≤ 85 * ((r : ℚ) - (g : ℚ)) := by
      have hx : -(1 : ℚ) / 2 ≤ 85 * ((r : ℚ) - g) / (2 * ((b : ℚ) - (m : ℚ))) := by
        rw [hHq] at hHge
        linarith
      rw [le_div_iff h2D] at hx
      linarith
    refine ⟨?_, ?_, ?_⟩
    · show |jsRound ((b : ℚ) - (b : ℚ) * (s8 : ℚ) / 255 * (5 - 2 * (h8 : ℚ) / 85)) -
        ((r : ℕ) : ℤ)| ≤ 3
      rcases le_total r g with hord | hord
      · -- red at most green: the hue byte is forced to 170, the factor to 1
        have hmrq : ((m : ℕ) : ℚ) = (r : ℚ) := by
          have he : m = r := by rw [hmdef]; exact min_eq_left hord
          exact_mod_cast he
        have hnum : 85 * ((r : ℚ) - (g : ℚ)) ≤ 0 := by
          have hc : (r : ℚ) ≤ (g : ℚ) := by exact_mod_cast hord
          linarith
        have hfr : 85 * ((r : ℚ) - g) / (2 * ((b : ℚ) - (m : ℚ))) ≤ 0 := by
          rw [div_le_iff h2D]
          linarith
        have hHle170 : Hq ≤ 170 := by rw [hHq]; linarith
        have hup := roundHalfEven_le Hq
        have hc : ((h8 : ℕ) : ℚ) = ((roundHalfEven Hq : ℤ) : ℚ) := by exact_mod_cast hh8
        have h171 : (h8 : ℚ) < 171 := by rw [hc]; linarith
        have h171n : h8 < 171 := by exact_mod_cast h171
        have hh170 : h8 = 170 := by omega
        have h170' : (h8 : ℚ) = 170 := by exact_mod_cast hh170
        rw [h170']
        have h1 : |(b : ℚ) - (b : ℚ) * (s8 : ℚ) / 255 * (5 - 2 * (170 : ℚ) / 85) -
            (((r : ℕ) : ℤ) : ℚ)| ≤ 1/2 := by
          rw [show (b : ℚ) - (b : ℚ) * (s8 : ℚ) / 255 * (5 - 2 * (170 : ℚ) / 85) -
              (((r : ℕ) : ℤ) : ℚ) = ((b : ℚ) - (m : ℚ)) - A by rw [hA, hmrq]; push_cast; ring]
          exact hDA
        have := jsRound_close_one _ ((r : ℕ) : ℤ) h1
        omega
      · -- green at most red: the error pattern with the exact shape factor
        have hmgq : ((m : ℕ) : ℚ) = (g : ℚ) := by
          have he : m = g := by rw [hmdef]; exact min_eq_right hord
          exact_mod_cast he
        have hbgne : (b : ℚ) - (g : ℚ) ≠ 0 := sub_ne_zero_of_ne (ne_of_gt hgb')
        have hDβ : ((b : ℚ) - (m : ℚ)) * (((b : ℚ) - (r : ℚ)) / ((b : ℚ) - (m : ℚ))) =
            (b : ℚ) - (r : ℚ) := by
          field_simp
        have key : (b : ℚ) - (b : ℚ) * (s8 : ℚ) / 255 * (5 - 2 * (h8 : ℚ) / 85) =
            (((r : ℕ) : ℤ) : ℚ) + (((b : ℚ) - (m : ℚ)) *
              (((b : ℚ) - (r : ℚ)) / ((b : ℚ) - (m : ℚ))) - A * (5 - 2 * (h8 : ℚ) / 85)) := by
          rw [hDβ, hA]
          push_cast
          ring
        rw [key]
        refine pattern_bound ((r : ℕ) : ℤ) ((b : ℚ) - (m : ℚ)) A
          (((b : ℚ) - (r : ℚ)) / ((b : ℚ) - (m : ℚ))) (5 - 2 * (h8 : ℚ) / 85)
          (by positivity) (by linarith) (by linarith) hDA ?_ ?_ ?_ htieA
        · have h212 : (h8 : ℚ) ≤ 212 := by exact_mod_cast hh8hi
          linarith
        · have h340 : (340 : ℚ) ≤ 2 * (h8 : ℚ) := by exact_mod_cast hs1
          linarith
        · have hβeq : ((b : ℚ) - (r : ℚ)) / ((b : ℚ) - (m : ℚ)) = 5 - 2 * Hq / 85 := by
            rw [hHq, hmgq]
            field_simp
            ring
          rw [hβeq, abs_le]
          constructor <;> linarith
    · show |jsRound ((b : ℚ) - (b : ℚ) * (s8 : ℚ) / 255) - ((g : ℕ) : ℤ)| ≤ 3
      have hDβ : ((b : ℚ) - (m : ℚ)) * (((b : ℚ) - (g : ℚ)) / ((b : ℚ) - (m : ℚ))) =
          (b : ℚ) - (g : ℚ) := by
        field_simp
      have key : (b : ℚ) - (b : ℚ) * (s8 : ℚ) / 255 =
          (((g : ℕ) : ℤ) : ℚ) + (((b : ℚ) - (m : ℚ)) *
            (((b : ℚ) - (g : ℚ)) / ((b : ℚ) - (m : ℚ))) - A * 1) := by
        rw [hDβ, hA]
        push_cast
        ring
      rw [key]
      refine pattern_bound ((g : ℕ) : ℤ) ((b : ℚ) - (m : ℚ)) A
        (((b : ℚ) - (g : ℚ)) / ((b : ℚ) - (m : ℚ))) 1
        (by positivity) (by linarith) (by linarith) hDA (by norm_num) (by norm_num) ?_ htieA
      have he : ((b : ℚ) - (g : ℚ)) / ((b : ℚ) - (m : ℚ)) - 1 =
          ((m : ℚ) - (g : ℚ)) / ((b : ℚ) - (m : ℚ)) := by
        field_simp
      rw [he, abs_le]
      constructor
      · rw [le_div_iff hD]
        rcases le_total r g with hord | hord
        · have hmq : ((m : ℕ) : ℚ) = (r : ℚ) := by
            have he2 : m = r := by rw [hmdef]; exact min_eq_left hord
            exact_mod_cast he2
          rw [hmq] at hb485 ⊢
          linarith
        · have hmq : ((m : ℕ) : ℚ) = (g : ℚ) := by
            have he2 : m = g := by rw [hmdef]; exact min_eq_right hord
            exact_mod_cast he2
          rw [hmq]
          linarith
      · rw [div_le_iff hD]
        linarith
    · show |((b : ℕ) : ℤ) - ((b : ℕ) : ℤ)| ≤ 3
      simp

/-- Round-trip on an achromatic pixel (all channels equal) is exact:
the encoder stores hue 0 and saturation 0, and the decoder returns the
value unchanged in all three channels. -/
theorem roundTrip_achromatic (r : ℕ) (hr : r ≤ 255) :
    roundTrip r r r = ((r : ℤ), (r : ℤ), (r : ℤ)) := by
  unfold roundTrip
  rw [encode_achromatic r 255 hr]
  show hsvToRgb 0 0 r = ((r : ℤ), (r : ℤ), (r : ℤ))
  rw [decode_s0 0 0 r (by norm_num)]
  simp [jsRound_natCast]

end RgbHsvFilter

/-- C1 (amended): the HSV encode/decode round trip
(`processImageData` followed by `hsvToRgb`) reproduces each channel to
within ±3 — not ±2 as the spec claims — on every RGB triple whose
stored hue does not clamp at zero.  The hue store clamps exactly when
red is the selected maximum and `g < b` (the computed hue is negative),
so the guarantee holds whenever `b ≤ g` or `r < b`; on the excluded
triples the error can reach 255. -/
theorem roundTrip_within_three (r g b : ℕ) (hr : r ≤ 255) (hg : g ≤ 255) (hb : b ≤ 255)
    (hgood : b ≤ g ∨ r < b) :
    |(RgbHsvFilter.roundTrip r g b).1 - (r : ℤ)| ≤ 3 ∧
    |(RgbHsvFilter.roundTrip r g b).2.1 - (g : ℤ)| ≤ 3 ∧
    |(RgbHsvFilter.roundTrip r g b).2.2 - (b : ℤ)| ≤ 3 := by
  rcases le_or_lt g r with hgr | hgr
  · rcases le_or_lt b r with hbr | hbr
    · -- red is the selected maximum; the hypothesis forces b ≤ g
      have hbg : b ≤ g := by
        rcases hgood with h | h
        · exact h
        · omega
      rcases eq_or_lt_of_le hbr with heq | hlt
      · -- all three channels coincide
        have h1 : g = r := by omega
        have h2 : b = r := by omega
        subst h1
        subst h2
        rw [RgbHsvFilter.roundTrip_achromatic b hr]
        norm_num
      · exact RgbHsvFilter.roundTrip_rmax_bound r g b hr hgr hbg hlt
    · exact RgbHsvFilter.roundTrip_bmax_bound r g b hb hbr (by omega)
  · rcases le_or_lt b g with hbg | hbg
    · exact RgbHsvFilter.roundTrip_gmax_bound r g b hg hgr hbg
    · exact RgbHsvFilter.roundTrip_bmax_bound r g b hb (by omega) hbg

/-- C1 counterexample: the spec's ±2 bound fails.  Pure magenta
`(255, 0, 255)` decodes to pure red `(255, 0, 0)` — its computed hue is
negative and the 8-bit store clamps it to 0, so the blue channel is off
by 255 — and even on unclamped inputs the error reaches 3:
`(255, 3, 0)` also comes back as `(255, 0, 0)`. -/
theorem roundTrip_pm2_counterexample :
    RgbHsvFilter.roundTrip 255 0 255 = (255, 0, 0) ∧
    ¬|(RgbHsvFilter.roundTrip 255 0 255).2.2 - (255 : ℤ)| ≤ 2 ∧
    RgbHsvFilter.roundTrip 255 3 0 = (255, 0, 0) ∧
    ¬|(RgbHsvFilter.roundTrip 255 3 0).2.1 - (3 : ℤ)| ≤ 2 := by
  have h1 : RgbHsvFilter.roundTrip 255 0 255 = (255, 0, 0) := by
    norm_num [RgbHsvFilter.roundTrip, RgbHsvFilter.processPixel, RgbHsvFilter.hsvToRgb,
      clampStore, roundHalfEven, jsRound, jsMod, jsTrunc, max_def, min_def, abs_eq_max_neg,
      toNat_lit, Int.toNat_zero, Int.toNat_one]
  have h2 : RgbHsvFilter.roundTrip 255 3 0 = (255, 0, 0) := by
    norm_num [RgbHsvFilter.roundTrip, RgbHsvFilter.processPixel, RgbHsvFilter.hsvToRgb,
      clampStore, roundHalfEven, jsRound, jsMod, jsTrunc, max_def, min_def, abs_eq_max_neg,
      toNat_lit, Int.toNat_zero, Int.toNat_one]
  refine ⟨h1, ?_, h2, ?_⟩
  · rw [h1]
    decide
  · rw [h2]
    decide

/-- Closed witness for the amended C1 bound at the chromatic triple
`(12, 200, 100)`. -/
theorem roundTrip_within_three_witness :
    (12 : ℕ) ≤ 255 ∧ (100 : ℕ) ≤ 200 ∧
    (|(RgbHsvFilter.roundTrip 12 200 100).1 - (12 : ℤ)| ≤ 3 ∧
     |(RgbHsvFilter.roundTrip 12 200 100).2.1 - (200 : ℤ)| ≤ 3 ∧
     |(RgbHsvFilter.roundTrip 12 200 100).2.2 - (100 : ℤ)| ≤ 3) :=
  ⟨by norm_num, by norm_num,
    roundTrip_within_three 12 200 100 (by norm_num) (by norm_num) (by norm_num)
      (Or.inl (by norm_num))⟩

end WebcamJS

